import Mathlib

/-!
Verification of the LgnTracing / LgnTelemetrySink core (legion-labs/legion,
`src/dccs/unreal`).

The development shallowly embeds, from the C++ sources:

* the byte-level serializers and the heterogeneous event queue
  (`LgnTracing/HeterogeneousQueue.h`, `strings.h`, `LogEvents.h`);
* the per-stream block/rotation machinery and the dispatch entry points
  (`EventBlock.h`, `EventStream.h`, `Dispatch.cpp`), as a sequential state
  machine;
* the dependency extractors (`LgnTelemetrySink/LogDependencies.h`);
* the block-payload formatter (`LgnTelemetrySink/InsertBlockRequest.h`),
  totalized so that an out-of-bounds buffer access is `none`.

Machine integers are `Nat` with explicit `% 2^w` at the byte boundaries;
byte buffers are `List Nat` (little-endian, as `details::WritePOD` lays
structs out on x86).
-/

namespace LgnTracing

/-! ## Little-endian byte encodings (`details::WritePOD` / `details::ReadPOD`) -/

/-- The `n` little-endian bytes of `v`, as `WritePOD` lays an unsigned integer
out in memory. -/
def leBytes : Nat → Nat → List Nat
  | 0, _ => []
  | n + 1, v => v % 256 :: leBytes n (v / 256)

/-- Recompose a little-endian byte list into a value (`ReadPOD`). -/
def leVal (bs : List Nat) : Nat :=
  bs.foldr (fun b acc => b + 256 * acc) 0

def u8Bytes (v : Nat) : List Nat := leBytes 1 v
def u32Bytes (v : Nat) : List Nat := leBytes 4 v
def u64Bytes (v : Nat) : List Nat := leBytes 8 v

theorem leBytes_length (n v : Nat) : (leBytes n v).length = n := by
  induction n generalizing v with
  | zero => rfl
  | succ n ih => simp [leBytes, ih]

theorem leVal_leBytes (n v : Nat) : leVal (leBytes n v) = v % 2 ^ (8 * n) := by
  induction n generalizing v with
  | zero => simp [leBytes, leVal, Nat.mod_one]
  | succ n ih =>
    have h256 : (0:Nat) < 256 := by norm_num
    have hv : v = 256 * (v / 256) + v % 256 := (Nat.div_add_mod v 256).symm
    have hpow : (2:Nat) ^ (8 * (n + 1)) = 256 * 2 ^ (8 * n) := by
      rw [Nat.mul_succ, pow_add]; ring
    have hmod : v % (256 * 2 ^ (8 * n)) = 256 * (v / 256 % 2 ^ (8 * n)) + v % 256 := by
      set K := 2 ^ (8 * n) with hK
      have hq : v / 256 = K * (v / 256 / K) + v / 256 % K := (Nat.div_add_mod _ K).symm
      have hvexp : v = 256 * K * (v / 256 / K) + (256 * (v / 256 % K) + v % 256) := by
        calc v = 256 * (v / 256) + v % 256 := hv
          _ = 256 * (K * (v / 256 / K) + v / 256 % K) + v % 256 := by rw [← hq]
          _ = 256 * K * (v / 256 / K) + (256 * (v / 256 % K) + v % 256) := by ring
      have hlt : 256 * (v / 256 % K) + v % 256 < 256 * K := by
        have h1 : v / 256 % K < K := Nat.mod_lt _ (Nat.pos_pow_of_pos _ (by norm_num))
        have h2 : v % 256 < 256 := Nat.mod_lt _ h256
        calc 256 * (v / 256 % K) + v % 256
            ≤ 256 * (K - 1) + v % 256 := by
              have := Nat.le_sub_one_of_lt h1
              exact Nat.add_le_add_right (Nat.mul_le_mul_left _ this) _
          _ < 256 * (K - 1) + 256 := Nat.add_lt_add_left h2 _
          _ ≤ 256 * K := by
              have hKpos : 1 ≤ K := Nat.one_le_iff_ne_zero.mpr (by positivity)
              omega
      calc v % (256 * K) = (256 * K * (v / 256 / K) + (256 * (v / 256 % K) + v % 256)) % (256 * K) := by
            rw [← hvexp]
        _ = (256 * (v / 256 % K) + v % 256) % (256 * K) := by
            rw [Nat.mul_comm (256 * K) (v / 256 / K), Nat.add_comm, Nat.add_mul_mod_self_right]
        _ = 256 * (v / 256 % K) + v % 256 := Nat.mod_eq_of_lt hlt
    calc leVal (leBytes (n + 1) v)
        = v % 256 + 256 * leVal (leBytes n (v / 256)) := by simp [leBytes, leVal]
      _ = v % 256 + 256 * (v / 256 % 2 ^ (8 * n)) := by rw [ih]
      _ = v % (256 * 2 ^ (8 * n)) := by rw [hmod]; ring
      _ = v % 2 ^ (8 * (n + 1)) := by rw [hpow]

/-! ## Front-consuming readers

The C++ readers advance a cursor into an append-only buffer; consuming from
the front of the remaining list is the same access pattern.  A read past the
end of the buffer (undefined behaviour in the source) is `none`. -/

def readBytes (k : Nat) (buf : List Nat) : Option (List Nat × List Nat) :=
  if k ≤ buf.length then some (buf.take k, buf.drop k) else none

def readU8 (buf : List Nat) : Option (Nat × List Nat) :=
  match buf with
  | [] => none
  | b :: rest => some (b, rest)

def readU32 (buf : List Nat) : Option (Nat × List Nat) :=
  (readBytes 4 buf).map fun p => (leVal p.1, p.2)

def readU64 (buf : List Nat) : Option (Nat × List Nat) :=
  (readBytes 8 buf).map fun p => (leVal p.1, p.2)

theorem readBytes_append (k : Nat) (bs rest : List Nat) (h : bs.length = k) :
    readBytes k (bs ++ rest) = some (bs, rest) := by
  subst h
  simp [readBytes, List.take_left, List.drop_left]

theorem readU8_cons (b : Nat) (rest : List Nat) : readU8 (b :: rest) = some (b, rest) := rfl

theorem readU32_append (v : Nat) (rest : List Nat) :
    readU32 (u32Bytes v ++ rest) = some (v % 2 ^ 32, rest) := by
  rw [readU32, readBytes_append 4 (u32Bytes v) rest (leBytes_length 4 v)]
  simp [u32Bytes, leVal_leBytes]

theorem readU64_append (v : Nat) (rest : List Nat) :
    readU64 (u64Bytes v ++ rest) = some (v % 2 ^ 64, rest) := by
  rw [readU64, readBytes_append 8 (u64Bytes v) rest (leBytes_length 8 v)]
  simp [u64Bytes, leVal_leBytes]

/-! ## Record shapes (`strings.h`, `LogEvents.h`)

`StaticStringRef` is the POD `{const void* Ptr; uint32 SizeBytes; uint8 Codec}`:
`sizeof` is 16 on x86-64 (8 + 4 + 1 + 3 bytes of padding); `WritePOD` copies
the raw object bytes, the padding modelled as zero since no reader looks at
it.  `DynamicString` owns its bytes at serialization time. -/

structure StaticStringRef where
  ptr : Nat
  sizeBytes : Nat
  codec : Nat
deriving DecidableEq, Repr

def StaticStringRef.wf (r : StaticStringRef) : Prop :=
  r.ptr < 2 ^ 64 ∧ r.sizeBytes < 2 ^ 32 ∧ r.codec < 2 ^ 8

instance (r : StaticStringRef) : Decidable r.wf := by unfold StaticStringRef.wf; infer_instance

/-- Raw object bytes of a `StaticStringRef`, as `details::WritePOD` copies
them (x86-64 layout, 3 tail padding bytes). -/
def staticStringRefBytes (r : StaticStringRef) : List Nat :=
  u64Bytes r.ptr ++ u32Bytes r.sizeBytes ++ u8Bytes r.codec ++ [0, 0, 0]

/-- Model of `details::ReadPOD<StaticStringRef>`: reinterpret 16 bytes at the cursor. -/
def readStaticStringRef (buf : List Nat) : Option (StaticStringRef × List Nat) := do
  let (p, b1) ← readU64 buf
  let (s, b2) ← readU32 b1
  let (c, b3) ← readU8 b2
  let (_, b4) ← readBytes 3 b3
  pure (⟨p, s, c⟩, b4)

structure DynamicString where
  codec : Nat
  strBytes : List Nat
deriving DecidableEq, Repr

def DynamicString.wf (s : DynamicString) : Prop :=
  s.codec < 2 ^ 8 ∧ s.strBytes.length < 2 ^ 32

instance (s : DynamicString) : Decidable s.wf := by unfold DynamicString.wf; infer_instance

/-- Model of `Serializer<DynamicString>::GetSize`: 1 (codec) + 4 (size) + payload. -/
def dynamicStringSize (s : DynamicString) : Nat :=
  1 + 4 + s.strBytes.length

/-- Model of `Serializer<DynamicString>::Write`: `[codec: u8][size: u32][bytes…]`. -/
def writeDynamicString (s : DynamicString) : List Nat :=
  u8Bytes s.codec ++ u32Bytes s.strBytes.length ++ s.strBytes

/-- Model of `Serializer<DynamicString>::Read`: decode codec and size, bind a view of
`size` bytes at the cursor, advance the cursor past them. -/
def readDynamicString (buf : List Nat) : Option (DynamicString × List Nat) := do
  let (c, b1) ← readU8 buf
  let (sz, b2) ← readU32 b1
  let (bs, b3) ← readBytes sz b2
  pure (⟨c, bs⟩, b3)

/-- The POD event `LogStaticStrEvent{const LogMetadata* Desc; uint64 Timestamp}`; the
pointer is its 64-bit address. POD, 16 bytes. -/
structure LogStaticStrEvent where
  desc : Nat
  timestamp : Nat
deriving DecidableEq, Repr

def LogStaticStrEvent.wf (e : LogStaticStrEvent) : Prop :=
  e.desc < 2 ^ 64 ∧ e.timestamp < 2 ^ 64

instance (e : LogStaticStrEvent) : Decidable e.wf := by
  unfold LogStaticStrEvent.wf; infer_instance

def logStaticStrEventBytes (e : LogStaticStrEvent) : List Nat :=
  u64Bytes e.desc ++ u64Bytes e.timestamp

def readLogStaticStrEvent (buf : List Nat) : Option (LogStaticStrEvent × List Nat) := do
  let (d, b1) ← readU64 buf
  let (t, b2) ← readU64 b1
  pure (⟨d, t⟩, b2)

/-- The event `LogStringInteropEvent{uint64 Timestamp; LogLevel::Type Level;
StaticStringRef Target; DynamicString Msg}`. -/
structure LogStringInteropEvent where
  timestamp : Nat
  level : Nat
  target : StaticStringRef
  msg : DynamicString
deriving DecidableEq, Repr

def LogStringInteropEvent.wf (e : LogStringInteropEvent) : Prop :=
  e.timestamp < 2 ^ 64 ∧ e.level < 2 ^ 8 ∧ e.target.wf ∧ e.msg.wf

instance (e : LogStringInteropEvent) : Decidable e.wf := by
  unfold LogStringInteropEvent.wf; infer_instance

/-- Model of `Serializer<LogStringInteropEvent>::GetSize`. -/
def logStringInteropEventSize (e : LogStringInteropEvent) : Nat :=
  8 + 1 + 16 + dynamicStringSize e.msg

/-- Model of `Serializer<LogStringInteropEvent>::Write`:
`[ts: u64][level: u8][target as POD][dynstr]`. -/
def writeLogStringInteropEvent (e : LogStringInteropEvent) : List Nat :=
  u64Bytes e.timestamp ++ u8Bytes e.level ++ staticStringRefBytes e.target
    ++ writeDynamicString e.msg

/-- Model of `Serializer<LogStringInteropEvent>::Read`. -/
def readLogStringInteropEvent (buf : List Nat) : Option (LogStringInteropEvent × List Nat) := do
  let (t, b1) ← readU64 buf
  let (lv, b2) ← readU8 b1
  let (tgt, b3) ← readStaticStringRef b2
  let (msg, b4) ← readDynamicString b3
  pure (⟨t, lv, tgt, msg⟩, b4)

/-! Round-trip lemmas for the individual serializers. -/

theorem readStaticStringRef_append (r : StaticStringRef) (hr : r.wf) (rest : List Nat) :
    readStaticStringRef (staticStringRefBytes r ++ rest) = some (r, rest) := by
  obtain ⟨h1, h2, h3⟩ := hr
  have e1 : r.ptr % 18446744073709551616 = r.ptr := Nat.mod_eq_of_lt h1
  have e2 : r.sizeBytes % 4294967296 = r.sizeBytes := Nat.mod_eq_of_lt h2
  have e3 : r.codec % 256 = r.codec := Nat.mod_eq_of_lt h3
  have hpad : readBytes 3 (0 :: 0 :: 0 :: rest) = some ([0, 0, 0], rest) :=
    readBytes_append 3 [0, 0, 0] rest rfl
  simp only [staticStringRefBytes, List.append_assoc, readStaticStringRef]
  rw [readU64_append]
  simp only [Option.bind_eq_bind, Option.some_bind]
  rw [readU32_append]
  simp only [Option.some_bind, u8Bytes, leBytes, List.cons_append, List.nil_append, readU8_cons]
  rw [hpad]
  simp [e1, e2, e3]

theorem readDynamicString_append (s : DynamicString) (hs : s.wf) (rest : List Nat) :
    readDynamicString (writeDynamicString s ++ rest) = some (s, rest) := by
  obtain ⟨h1, h2⟩ := hs
  have e1 : s.codec % 256 = s.codec := Nat.mod_eq_of_lt h1
  have e2 : s.strBytes.length % 2 ^ 32 = s.strBytes.length := Nat.mod_eq_of_lt h2
  simp only [writeDynamicString, List.append_assoc, readDynamicString, u8Bytes, leBytes,
    List.cons_append, List.nil_append, readU8_cons, Option.bind_eq_bind, Option.some_bind]
  rw [readU32_append]
  simp only [Option.some_bind]
  rw [e2, readBytes_append s.strBytes.length s.strBytes rest rfl]
  simp [e1]

theorem readLogStaticStrEvent_append (e : LogStaticStrEvent) (he : e.wf) (rest : List Nat) :
    readLogStaticStrEvent (logStaticStrEventBytes e ++ rest) = some (e, rest) := by
  obtain ⟨h1, h2⟩ := he
  have e1 : e.desc % 18446744073709551616 = e.desc := Nat.mod_eq_of_lt h1
  have e2 : e.timestamp % 18446744073709551616 = e.timestamp := Nat.mod_eq_of_lt h2
  simp only [logStaticStrEventBytes, List.append_assoc, readLogStaticStrEvent]
  rw [readU64_append]
  simp only [Option.bind_eq_bind, Option.some_bind]
  rw [readU64_append]
  simp [e1, e2]

theorem readLogStringInteropEvent_append (e : LogStringInteropEvent) (he : e.wf)
    (rest : List Nat) :
    readLogStringInteropEvent (writeLogStringInteropEvent e ++ rest) = some (e, rest) := by
  obtain ⟨h1, h2, h3, h4⟩ := he
  have e1 : e.timestamp % 18446744073709551616 = e.timestamp := Nat.mod_eq_of_lt h1
  have e2 : e.level % 256 = e.level := Nat.mod_eq_of_lt h2
  simp only [writeLogStringInteropEvent, List.append_assoc, readLogStringInteropEvent]
  rw [readU64_append]
  simp only [Option.bind_eq_bind, Option.some_bind, u8Bytes, leBytes, List.cons_append,
    List.nil_append, readU8_cons]
  rw [readStaticStringRef_append e.target h3]
  simp only [Option.some_bind]
  rw [readDynamicString_append e.msg h4]
  simp [e1, e2]

/-! ## The heterogeneous log-event queue (`HeterogeneousQueue.h`, `LogBlock.h`)

`LogEventQueue = HeterogeneousQueue<LogStaticStrEvent, LogStringInteropEvent,
StaticStringRef>`; the wire tag of a record is its index in that type list.
`Push` appends `[tag: u8] [size: u32 if variable-size] [payload]` and
increments `NbEvents`; `ForEach` scans the buffer from cursor 0, reified here
as the list of visited records (`none` if a scan would read out of bounds or
hit an unknown tag, both undefined in the source). -/

inductive LogRecord where
  | staticStr (e : LogStaticStrEvent)
  | interop (e : LogStringInteropEvent)
  | staticRef (r : StaticStringRef)
deriving DecidableEq, Repr

def LogRecord.wf : LogRecord → Prop
  | .staticStr e => e.wf
  | .interop e => e.wf
  | .staticRef r => r.wf

instance (r : LogRecord) : Decidable r.wf := by
  cases r <;> (unfold LogRecord.wf; infer_instance)

/-- Bytes appended by `HeterogeneousQueue::Push` for one record:
`LogStaticStrEvent` and `StaticStringRef` are static-size PODs,
`LogStringInteropEvent` gets a `u32` size prefix. -/
def LogRecord.pushBytes : LogRecord → List Nat
  | .staticStr e => 0 :: logStaticStrEventBytes e
  | .interop e => 1 :: (u32Bytes (logStringInteropEventSize e) ++ writeLogStringInteropEvent e)
  | .staticRef r => 2 :: staticStringRefBytes r

structure LogEventQueue where
  buffer : List Nat
  nbEvents : Nat
deriving Repr

/-- A freshly constructed queue: `reserve` affects capacity only. -/
def LogEventQueue.empty : LogEventQueue := ⟨[], 0⟩

def LogEventQueue.push (q : LogEventQueue) (r : LogRecord) : LogEventQueue :=
  { buffer := q.buffer ++ r.pushBytes, nbEvents := q.nbEvents + 1 }

def LogEventQueue.pushAll (q : LogEventQueue) (rs : List LogRecord) : LogEventQueue :=
  rs.foldl LogEventQueue.push q

def LogEventQueue.getSizeBytes (q : LogEventQueue) : Nat := q.buffer.length

def LogEventQueue.getNbEvents (q : LogEventQueue) : Nat := q.nbEvents

/-- Model of `GetPtr`, i.e. `&Buffer[0]`: the element at index 0 of the byte
buffer; `none` when the buffer is empty (out-of-bounds access). -/
def LogEventQueue.getPtr (q : LogEventQueue) : Option Nat := q.buffer.get? 0

/-- One dispatch step of `VisitValue<Visitor, TS...>`: decode the record for
the given leading tag.  The `u32` size prefix of a variable-size record is
read and discarded, exactly as `valueSize` is unused in the source. -/
def decodeLogRecord (tag : Nat) (buf : List Nat) : Option (LogRecord × List Nat) :=
  match tag with
  | 0 => (readLogStaticStrEvent buf).map fun p => (.staticStr p.1, p.2)
  | 1 => do
      let (_, b1) ← readU32 buf
      let (e, b2) ← readLogStringInteropEvent b1
      pure (.interop e, b2)
  | 2 => (readStaticStringRef buf).map fun p => (.staticRef p.1, p.2)
  | _ => none

/-- The `ForEach` scan loop, fuelled by the buffer length (each iteration
consumes at least the tag byte). -/
def decodeLogRecords : Nat → List Nat → Option (List LogRecord)
  | _, [] => some []
  | 0, _ :: _ => none
  | fuel + 1, tag :: rest => do
      let (r, rest2) ← decodeLogRecord tag rest
      let rs ← decodeLogRecords fuel rest2
      pure (r :: rs)

/-- Model of `HeterogeneousQueue::ForEach`, reified as the sequence of
visited records. -/
def LogEventQueue.forEach (q : LogEventQueue) : Option (List LogRecord) :=
  decodeLogRecords q.buffer.length q.buffer

theorem decodeLogRecord_append (r : LogRecord) (h : r.wf) (tag : Nat) (body rest : List Nat)
    (hpb : r.pushBytes = tag :: body) :
    decodeLogRecord tag (body ++ rest) = some (r, rest) := by
  cases r with
  | staticStr e =>
    obtain ⟨rfl, rfl⟩ : tag = 0 ∧ body = logStaticStrEventBytes e := by
      simpa [LogRecord.pushBytes] using hpb.symm
    simp [decodeLogRecord, readLogStaticStrEvent_append e h]
  | interop e =>
    obtain ⟨rfl, rfl⟩ :
        tag = 1 ∧ body = u32Bytes (logStringInteropEventSize e) ++ writeLogStringInteropEvent e := by
      simpa [LogRecord.pushBytes] using hpb.symm
    simp only [decodeLogRecord, List.append_assoc]
    rw [readU32_append]
    simp only [Option.bind_eq_bind, Option.some_bind]
    rw [readLogStringInteropEvent_append e h]
    rfl
  | staticRef s =>
    obtain ⟨rfl, rfl⟩ : tag = 2 ∧ body = staticStringRefBytes s := by
      simpa [LogRecord.pushBytes] using hpb.symm
    simp [decodeLogRecord, readStaticStringRef_append s h]

theorem decodeLogRecords_flatMap (rs : List LogRecord) (h : ∀ r ∈ rs, r.wf) (fuel : Nat)
    (hf : (rs.flatMap LogRecord.pushBytes).length ≤ fuel) :
    decodeLogRecords fuel (rs.flatMap LogRecord.pushBytes) = some rs := by
  induction rs generalizing fuel with
  | nil => cases fuel <;> rfl
  | cons r rs ih =>
    obtain ⟨tag, body, htb⟩ : ∃ tag body, r.pushBytes = tag :: body := by
      cases r <;> exact ⟨_, _, rfl⟩
    have hflat : (r :: rs).flatMap LogRecord.pushBytes
        = tag :: (body ++ rs.flatMap LogRecord.pushBytes) := by
      simp [List.flatMap_cons, htb]
    rw [hflat] at hf ⊢
    cases fuel with
    | zero => simp at hf
    | succ f =>
      have hlen : (rs.flatMap LogRecord.pushBytes).length ≤ f := by
        simp only [List.length_cons, List.length_append] at hf
        omega
      rw [decodeLogRecords]
      rw [decodeLogRecord_append r (h r (by simp)) tag body _ htb]
      simp only [Option.bind_eq_bind, Option.some_bind]
      rw [ih (fun x hx => h x (by simp [hx])) f hlen]
      rfl

theorem LogEventQueue.pushAll_buffer (rs : List LogRecord) (q : LogEventQueue) :
    (q.pushAll rs).buffer = q.buffer ++ rs.flatMap LogRecord.pushBytes ∧
      (q.pushAll rs).nbEvents = q.nbEvents + rs.length := by
  induction rs generalizing q with
  | nil => simp [pushAll]
  | cons r rs ih =>
    have := ih (q.push r)
    simpa [pushAll, push, List.flatMap_cons, List.append_assoc, Nat.add_comm,
      Nat.add_assoc, Nat.add_left_comm] using this

/-! ## Claims C2 and C3 -/

/-- C2: for every sequence of values pushed into the heterogeneous queue
(each of a type in the queue's type list, here the `LogEventQueue`
instantiation), `ForEach` — the linear scan from cursor 0 to `GetSizeBytes()`
dispatching on each record's leading type tag — visits exactly the pushed
records, in push order, and `GetNbEvents()` equals their number. -/
theorem C2_forEach_visits_pushes_in_order (rs : List LogRecord) (h : ∀ r ∈ rs, r.wf) :
    (LogEventQueue.empty.pushAll rs).forEach = some rs ∧
      (LogEventQueue.empty.pushAll rs).getNbEvents = rs.length := by
  obtain ⟨hbuf, hnb⟩ := LogEventQueue.pushAll_buffer rs LogEventQueue.empty
  constructor
  · rw [LogEventQueue.forEach, hbuf]
    simp only [LogEventQueue.empty, List.nil_append]
    exact decodeLogRecords_flatMap rs h _ le_rfl
  · rw [LogEventQueue.getNbEvents, hnb]
    simp [LogEventQueue.empty]

theorem C2_forEach_visits_pushes_in_order_witness :
    (∀ r ∈ [LogRecord.staticStr ⟨1, 1000⟩,
            LogRecord.interop ⟨1001, 3, ⟨5, 6, 1⟩, ⟨0, [104, 105]⟩⟩,
            LogRecord.staticRef ⟨7, 8, 1⟩,
            LogRecord.staticStr ⟨1, 1002⟩], r.wf) ∧
    ((LogEventQueue.empty.pushAll
        [LogRecord.staticStr ⟨1, 1000⟩,
         LogRecord.interop ⟨1001, 3, ⟨5, 6, 1⟩, ⟨0, [104, 105]⟩⟩,
         LogRecord.staticRef ⟨7, 8, 1⟩,
         LogRecord.staticStr ⟨1, 1002⟩]).forEach
      = some [LogRecord.staticStr ⟨1, 1000⟩,
              LogRecord.interop ⟨1001, 3, ⟨5, 6, 1⟩, ⟨0, [104, 105]⟩⟩,
              LogRecord.staticRef ⟨7, 8, 1⟩,
              LogRecord.staticStr ⟨1, 1002⟩] ∧
     (LogEventQueue.empty.pushAll
        [LogRecord.staticStr ⟨1, 1000⟩,
         LogRecord.interop ⟨1001, 3, ⟨5, 6, 1⟩, ⟨0, [104, 105]⟩⟩,
         LogRecord.staticRef ⟨7, 8, 1⟩,
         LogRecord.staticStr ⟨1, 1002⟩]).getNbEvents = 4) :=
  ⟨by decide, C2_forEach_visits_pushes_in_order _ (by decide)⟩

/-- C3: serializing a value with `Serializer<T>::Write` (preceded by the
`u32` length prefix for non-static-size types, as `Push` lays it down) and
then decoding with `Serializer<T>::Read` at the same cursor yields the value
back byte-for-byte and leaves the cursor exactly past the record (the
returned remainder).  Stated for `DynamicString` (wire layout
`[codec][size][bytes]`), `LogStringInteropEvent` (wire layout
`[ts][level][target as POD][dynstr]`, with `Push`'s prefix), and the two
static-size PODs of the log queue. -/
theorem C3_serializer_roundTrip (s : DynamicString) (hs : s.wf)
    (e : LogStringInteropEvent) (he : e.wf) (l : LogStaticStrEvent) (hl : l.wf)
    (r : StaticStringRef) (hr : r.wf) (rest : List Nat) :
    readDynamicString (writeDynamicString s ++ rest) = some (s, rest) ∧
      readLogStringInteropEvent (writeLogStringInteropEvent e ++ rest) = some (e, rest) ∧
      decodeLogRecord 1 (u32Bytes (logStringInteropEventSize e)
        ++ writeLogStringInteropEvent e ++ rest) = some (.interop e, rest) ∧
      readLogStaticStrEvent (logStaticStrEventBytes l ++ rest) = some (l, rest) ∧
      readStaticStringRef (staticStringRefBytes r ++ rest) = some (r, rest) := by
  refine ⟨readDynamicString_append s hs rest, readLogStringInteropEvent_append e he rest,
    ?_, readLogStaticStrEvent_append l hl rest, readStaticStringRef_append r hr rest⟩
  exact decodeLogRecord_append (.interop e) he 1 _ rest rfl

theorem C3_serializer_roundTrip_witness :
    (DynamicString.wf ⟨1, [10, 20, 30]⟩ ∧
      LogStringInteropEvent.wf ⟨42, 3, ⟨5, 6, 1⟩, ⟨0, [104]⟩⟩ ∧
      LogStaticStrEvent.wf ⟨9, 77⟩ ∧ StaticStringRef.wf ⟨5, 6, 1⟩) ∧
    (readDynamicString (writeDynamicString ⟨1, [10, 20, 30]⟩ ++ [9, 9])
        = some (⟨1, [10, 20, 30]⟩, [9, 9]) ∧
      readLogStringInteropEvent
          (writeLogStringInteropEvent ⟨42, 3, ⟨5, 6, 1⟩, ⟨0, [104]⟩⟩ ++ [9, 9])
        = some (⟨42, 3, ⟨5, 6, 1⟩, ⟨0, [104]⟩⟩, [9, 9]) ∧
      decodeLogRecord 1 (u32Bytes (logStringInteropEventSize ⟨42, 3, ⟨5, 6, 1⟩, ⟨0, [104]⟩⟩)
          ++ writeLogStringInteropEvent ⟨42, 3, ⟨5, 6, 1⟩, ⟨0, [104]⟩⟩ ++ [9, 9])
        = some (.interop ⟨42, 3, ⟨5, 6, 1⟩, ⟨0, [104]⟩⟩, [9, 9]) ∧
      readLogStaticStrEvent (logStaticStrEventBytes ⟨9, 77⟩ ++ [9, 9]) = some (⟨9, 77⟩, [9, 9]) ∧
      readStaticStringRef (staticStringRefBytes ⟨5, 6, 1⟩ ++ [9, 9]) = some (⟨5, 6, 1⟩, [9, 9])) :=
  ⟨by decide,
    C3_serializer_roundTrip ⟨1, [10, 20, 30]⟩ (by decide) ⟨42, 3, ⟨5, 6, 1⟩, ⟨0, [104]⟩⟩
      (by decide) ⟨9, 77⟩ (by decide) ⟨5, 6, 1⟩ (by decide) [9, 9]⟩

/-! ## Metric and span records (`MetricEvents.h`, `SpanEvents.h`,
`MetricBlock.h`, `ThreadBlock.h`)

`MetricEventQueue = HeterogeneousQueue<IntegerMetricEvent, FloatMetricEvent>`
and `ThreadEventQueue = HeterogeneousQueue<BeginThreadSpanEvent,
EndThreadSpanEvent>`; all four shapes are 24-byte PODs (pointer, 8-byte
value or nothing, timestamp), pushed as `[tag: u8][payload]`.  A double value
is carried as its raw 8 bytes (`valueBits`); nothing in the core computes on
it. -/

inductive MetricRecord where
  | int (desc value ts : Nat)
  | float (desc valueBits ts : Nat)
deriving DecidableEq, Repr

def MetricRecord.pushBytes : MetricRecord → List Nat
  | .int d v t => 0 :: (u64Bytes d ++ u64Bytes v ++ u64Bytes t)
  | .float d v t => 1 :: (u64Bytes d ++ u64Bytes v ++ u64Bytes t)

def MetricRecord.ts : MetricRecord → Nat
  | .int _ _ t => t
  | .float _ _ t => t

inductive SpanRecord where
  | beginSpan (desc ts : Nat)
  | endSpan (desc ts : Nat)
deriving DecidableEq, Repr

def SpanRecord.pushBytes : SpanRecord → List Nat
  | .beginSpan d t => 0 :: (u64Bytes d ++ u64Bytes t)
  | .endSpan d t => 1 :: (u64Bytes d ++ u64Bytes t)

def SpanRecord.ts : SpanRecord → Nat
  | .beginSpan _ t => t
  | .endSpan _ t => t

/-- Timestamps of log-queue records: `StaticStringRef` is a parsing aid, not
an event, and carries none (no dispatch entry point pushes one). -/
def LogRecord.ts : LogRecord → Option Nat
  | .staticStr e => some e.timestamp
  | .interop e => some e.timestamp
  | .staticRef _ => none

/-! ## Blocks, streams and the dispatch singleton
(`EventBlock.h`, `EventStream.h`, `Dispatch.cpp`)

A sequential model of the dispatch layer: the per-stream recursive mutexes
serialize emissions, so a trace of entry-point calls is a list of operations
applied in order.  `DualTime` is reduced to its cycle counter (the wall-clock
member plays no role in any claim); the sink is reified as the ordered list
of callbacks it has received.  The sink's own instrumentation events
(`LGN_SPAN_SCOPE` / `LGN_IMETRIC` / the shutdown log line) are additional
emissions through these same entry points and are elided. -/

structure EventBlock (E : Type) where
  beginTs : Nat
  endTs : Option Nat
  events : List E
  capacity : Nat
deriving DecidableEq, Repr

/-- A fresh block, as the `EventBlock` constructor builds one: `End` zeroed
(modelled `none`), empty queue, `Capacity = bufferSize`. -/
def mkBlock (E : Type) (beginTs bufferSize : Nat) : EventBlock E :=
  ⟨beginTs, none, [], bufferSize⟩

/-- Model of `EventBlock::Close`: seal the block with the end time. -/
def EventBlock.close {E : Type} (b : EventBlock E) (endTs : Nat) : EventBlock E :=
  { b with endTs := some endTs }

/-- Block byte size: the queue buffer length, each record contributing its
`Push` bytes. -/
def EventBlock.sizeBytes {E : Type} (recBytes : E → List Nat) (b : EventBlock E) : Nat :=
  (b.events.map fun e => (recBytes e).length).sum

structure EventStream (E : Type) where
  current : EventBlock E
  fullThreshold : Nat
deriving DecidableEq, Repr

/-- Model of the `EventStreamImpl` constructor:
`FullThreshold = capacity - BUFFER_PADDING`. -/
def EventStream.mkStream {E : Type} (block : EventBlock E) (padding : Nat) : EventStream E :=
  ⟨block, block.capacity - padding⟩

/-- Model of `EventStreamImpl::SwapBlocks`: install the new block, reset the
threshold from its capacity, return the old block unsealed. -/
def EventStream.swapBlocks {E : Type} (s : EventStream E) (newBlock : EventBlock E)
    (padding : Nat) : EventStream E × EventBlock E :=
  (⟨newBlock, newBlock.capacity - padding⟩, s.current)

/-- Append to the current block's queue
(`GetCurrentBlock().GetEvents().Push(event)`). -/
def EventStream.push {E : Type} (s : EventStream E) (e : E) : EventStream E :=
  { s with current := { s.current with events := s.current.events ++ [e] } }

/-- Model of `EventStreamImpl::IsFull`:
`current.GetSizeBytes() >= FullThreshold`. -/
def EventStream.isFull {E : Type} (recBytes : E → List Nat) (s : EventStream E) : Prop :=
  s.fullThreshold ≤ s.current.sizeBytes recBytes

instance {E : Type} (recBytes : E → List Nat) (s : EventStream E) :
    Decidable (s.isFull recBytes) := by unfold EventStream.isFull; infer_instance

/-- Model of `EventStreamImpl::MarkFull`: zero the threshold. -/
def EventStream.markFull {E : Type} (s : EventStream E) : EventStream E :=
  { s with fullThreshold := 0 }

/-- The per-stream `BUFFER_PADDING` template arguments
(`LogStream.h` / `MetricStream.h` / `ThreadStream.h`). -/
def LOG_PADDING : Nat := 128
def METRIC_PADDING : Nat := 32
def THREAD_PADDING : Nat := 32

structure DispatchD where
  logStream : EventStream LogRecord
  metricStream : EventStream MetricRecord
  logBufferSize : Nat
  metricBufferSize : Nat
  threadBufferSize : Nat
deriving DecidableEq, Repr

inductive SinkCall where
  | onStartup
  | onInitLogStream
  | onInitMetricStream
  | onInitThreadStream
  | onProcessLogBlock (b : EventBlock LogRecord)
  | onProcessMetricBlock (b : EventBlock MetricRecord)
  | onProcessThreadBlock (b : EventBlock SpanRecord)
  | onShutdown
deriving DecidableEq, Repr

/-- Global state: the `GDispatch` pointer, the calling thread's
`thread_local ThreadStream*`, and the sink's received callbacks in order. -/
structure GState where
  gDispatch : Option DispatchD
  threadLocal : Option (EventStream SpanRecord)
  sinkCalls : List SinkCall
deriving DecidableEq, Repr

def initialState : GState := ⟨none, none, []⟩

/-- Model of `Dispatch::Init` followed by the three startup callbacks:
a no-op when the singleton already exists; otherwise builds both streams
(blocks begin at `processInfo->StartTime`) and emits `OnStartup`,
`OnInitLogStream`, `OnInitMetricStream` in that order. -/
def dispatchInit (procStartTs logBufferSize metricBufferSize threadBufferSize : Nat)
    (st : GState) : GState :=
  match st.gDispatch with
  | some _ => st
  | none =>
      let logBlock := mkBlock LogRecord procStartTs logBufferSize
      let metricBlock := mkBlock MetricRecord procStartTs metricBufferSize
      { st with
          gDispatch := some
            { logStream := EventStream.mkStream logBlock LOG_PADDING
              metricStream := EventStream.mkStream metricBlock METRIC_PADDING
              logBufferSize := logBufferSize
              metricBufferSize := metricBufferSize
              threadBufferSize := threadBufferSize }
          sinkCalls := st.sinkCalls ++ [.onStartup, .onInitLogStream, .onInitMetricStream] }

/-- Model of `Dispatch::FlushLogStreamImpl`: capture `now`, swap in a fresh
block, seal the old one with `now`, hand it to the sink. -/
def flushLogStreamImpl (now : Nat) (d : DispatchD) : DispatchD × EventBlock LogRecord :=
  let p := d.logStream.swapBlocks (mkBlock LogRecord now d.logBufferSize) LOG_PADDING
  ({ d with logStream := p.1 }, p.2.close now)

/-- Model of `Dispatch::FlushMetricStreamImpl`. -/
def flushMetricStreamImpl (now : Nat) (d : DispatchD) : DispatchD × EventBlock MetricRecord :=
  let p := d.metricStream.swapBlocks (mkBlock MetricRecord now d.metricBufferSize) METRIC_PADDING
  ({ d with metricStream := p.1 }, p.2.close now)

/-- Model of `QueueLogEntry<T>` (the `LogInterop` / `LogStaticStr` entry
points): a null singleton returns silently; otherwise push, and rotate when
`IsFull()`. -/
def queueLogEntry (e : LogRecord) (now : Nat) (st : GState) : GState :=
  match st.gDispatch with
  | none => st
  | some d =>
      let d1 := { d with logStream := d.logStream.push e }
      if d1.logStream.isFull LogRecord.pushBytes then
        let p := flushLogStreamImpl now d1
        { st with gDispatch := some p.1
                  sinkCalls := st.sinkCalls ++ [.onProcessLogBlock p.2] }
      else { st with gDispatch := some d1 }

/-- Model of `QueueMetric<T>` (the `IntMetric` / `FloatMetric` entry points). -/
def queueMetric (m : MetricRecord) (now : Nat) (st : GState) : GState :=
  match st.gDispatch with
  | none => st
  | some d =>
      let d1 := { d with metricStream := d.metricStream.push m }
      if d1.metricStream.isFull MetricRecord.pushBytes then
        let p := flushMetricStreamImpl now d1
        { st with gDispatch := some p.1
                  sinkCalls := st.sinkCalls ++ [.onProcessMetricBlock p.2] }
      else { st with gDispatch := some d1 }

/-- Model of the `FlushLogStream` entry point. -/
def flushLogStream (now : Nat) (st : GState) : GState :=
  match st.gDispatch with
  | none => st
  | some d =>
      let p := flushLogStreamImpl now d
      { st with gDispatch := some p.1
                sinkCalls := st.sinkCalls ++ [.onProcessLogBlock p.2] }

/-- Model of the `FlushMetricStream` entry point. -/
def flushMetricStream (now : Nat) (st : GState) : GState :=
  match st.gDispatch with
  | none => st
  | some d =>
      let p := flushMetricStreamImpl now d
      { st with gDispatch := some p.1
                sinkCalls := st.sinkCalls ++ [.onProcessMetricBlock p.2] }

/-- Model of `QueueThreadEvent<T>` (the `BeginScope` / `EndScope` entry
points), including `GetCurrentThreadStream`: an already-installed
thread-local stream is used even when the singleton is null; a fresh thread
needs the singleton to allocate and publish a stream (`OnInitThreadStream`);
rotation of a full thread block re-reads the singleton and returns silently
when it is null. -/
def queueThreadEvent (e : SpanRecord) (now : Nat) (st : GState) : GState :=
  let allocated : Option (GState × EventStream SpanRecord) :=
    match st.threadLocal with
    | some s => some (st, s)
    | none =>
        match st.gDispatch with
        | none => none
        | some d =>
            let s := EventStream.mkStream (mkBlock SpanRecord now d.threadBufferSize)
              THREAD_PADDING
            some ({ st with threadLocal := some s
                            sinkCalls := st.sinkCalls ++ [.onInitThreadStream] }, s)
  match allocated with
  | none => st
  | some (st1, s) =>
      let s1 := s.push e
      if s1.isFull SpanRecord.pushBytes then
        match st1.gDispatch with
        | none => { st1 with threadLocal := some s1 }
        | some d =>
            let p := s1.swapBlocks (mkBlock SpanRecord now d.threadBufferSize) THREAD_PADDING
            { st1 with threadLocal := some p.1
                       sinkCalls := st1.sinkCalls
                         ++ [.onProcessThreadBlock (p.2.close now)] }
      else { st1 with threadLocal := some s1 }

/-- Model of `Shutdown()` composed with `RemoteSink::OnShutdown`: a null
singleton returns silently; otherwise the sink's `OnShutdown` flushes the
log then the metric stream through the public entry points (the singleton is
still set), the worker drains, `OnShutdown` returns, and only then is
`GDispatch` cleared. -/
def dispatchShutdown (now : Nat) (st : GState) : GState :=
  match st.gDispatch with
  | none => st
  | some _ =>
      let st1 := flushLogStream now st
      let st2 := flushMetricStream now st1
      { st2 with gDispatch := none, sinkCalls := st2.sinkCalls ++ [.onShutdown] }

/-! ## Traces of entry-point calls

One operation per public dispatch call.  Every operation carries the value
of the cycle counter at the `DualTime::Now()` / `Cycles64()` read it
performs; an emission additionally carries the event, whose timestamp was
read by the caller before the call (`FPlatformTime::Cycles64()` in the
`LGN_*` macros), hence precedes the operation's own `now`. -/

inductive DispatchOp where
  | emitLog (e : LogRecord) (now : Nat)
  | emitMetric (m : MetricRecord) (now : Nat)
  | emitSpan (e : SpanRecord) (now : Nat)
  | opFlushLog (now : Nat)
  | opFlushMetric (now : Nat)
  | opInit (procStartTs logBufferSize metricBufferSize threadBufferSize : Nat)
  | opShutdown (now : Nat)
deriving DecidableEq, Repr

def applyOp (st : GState) : DispatchOp → GState
  | .emitLog e now => queueLogEntry e now st
  | .emitMetric m now => queueMetric m now st
  | .emitSpan e now => queueThreadEvent e now st
  | .opFlushLog now => flushLogStream now st
  | .opFlushMetric now => flushMetricStream now st
  | .opInit p l m t => dispatchInit p l m t st
  | .opShutdown now => dispatchShutdown now st

def runOps (st : GState) (ops : List DispatchOp) : GState := ops.foldl applyOp st

/-- Clock readings performed by one operation, in program order: the
caller's timestamp capture (when the event shape has one) followed by the
operation's own `Now()`. -/
def DispatchOp.times : DispatchOp → List Nat
  | .emitLog e now => e.ts.toList ++ [now]
  | .emitMetric m now => [m.ts, now]
  | .emitSpan e now => [e.ts, now]
  | .opFlushLog now => [now]
  | .opFlushMetric now => [now]
  | .opInit p _ _ _ => [p]
  | .opShutdown now => [now]

def DispatchOp.isShutdown : DispatchOp → Bool
  | .opShutdown _ => true
  | _ => false

/-- Log events delivered to the sink, in delivery order. -/
def deliveredLog (calls : List SinkCall) : List LogRecord :=
  calls.flatMap fun c =>
    match c with
    | .onProcessLogBlock b => b.events
    | _ => []

/-- Metric events delivered to the sink, in delivery order. -/
def deliveredMetric (calls : List SinkCall) : List MetricRecord :=
  calls.flatMap fun c =>
    match c with
    | .onProcessMetricBlock b => b.events
    | _ => []

/-- Log events admitted by a trace (in emission order). -/
def emittedLog (ops : List DispatchOp) : List LogRecord :=
  ops.flatMap fun op =>
    match op with
    | .emitLog e _ => [e]
    | _ => []

/-- Metric events admitted by a trace (in emission order). -/
def emittedMetric (ops : List DispatchOp) : List MetricRecord :=
  ops.flatMap fun op =>
    match op with
    | .emitMetric m _ => [m]
    | _ => []

/-- Events sitting in the current (unsealed) log block. -/
def currentLogEvents (st : GState) : List LogRecord :=
  match st.gDispatch with
  | none => []
  | some d => d.logStream.current.events

/-- Events sitting in the current (unsealed) metric block. -/
def currentMetricEvents (st : GState) : List MetricRecord :=
  match st.gDispatch with
  | none => []
  | some d => d.metricStream.current.events

theorem deliveredLog_append (a b : List SinkCall) :
    deliveredLog (a ++ b) = deliveredLog a ++ deliveredLog b := by
  simp [deliveredLog]

theorem deliveredMetric_append (a b : List SinkCall) :
    deliveredMetric (a ++ b) = deliveredMetric a ++ deliveredMetric b := by
  simp [deliveredMetric]

/-- One-step content preservation for the log and metric streams: any
non-shutdown operation on a live dispatch keeps it live and moves events
only from the current block into delivered blocks, losing and reordering
nothing. -/
theorem applyOp_preserves (st : GState) (hs : st.gDispatch.isSome) (op : DispatchOp)
    (hop : op.isShutdown = false) :
    (applyOp st op).gDispatch.isSome ∧
      deliveredLog (applyOp st op).sinkCalls ++ currentLogEvents (applyOp st op)
        = deliveredLog st.sinkCalls ++ currentLogEvents st ++ emittedLog [op] ∧
      deliveredMetric (applyOp st op).sinkCalls ++ currentMetricEvents (applyOp st op)
        = deliveredMetric st.sinkCalls ++ currentMetricEvents st ++ emittedMetric [op] := by
  obtain ⟨d, hd⟩ := Option.isSome_iff_exists.mp hs
  cases op with
  | emitLog e now =>
    simp only [applyOp, queueLogEntry, hd]
    split
    · simp [flushLogStreamImpl, EventStream.swapBlocks, EventStream.push,
        EventBlock.close, deliveredLog, deliveredMetric, currentLogEvents,
        currentMetricEvents, emittedLog, emittedMetric, mkBlock, hd]
    · simp [EventStream.push, deliveredLog, deliveredMetric, currentLogEvents,
        currentMetricEvents, emittedLog, emittedMetric, hd]
  | emitMetric m now =>
    simp only [applyOp, queueMetric, hd]
    split
    · simp [flushMetricStreamImpl, EventStream.swapBlocks, EventStream.push,
        EventBlock.close, deliveredLog, deliveredMetric, currentLogEvents,
        currentMetricEvents, emittedLog, emittedMetric, mkBlock, hd]
    · simp [EventStream.push, deliveredLog, deliveredMetric, currentLogEvents,
        currentMetricEvents, emittedLog, emittedMetric, hd]
  | emitSpan e now =>
    simp only [applyOp, queueThreadEvent, hd]
    cases htl : st.threadLocal with
    | none =>
      simp only [htl]
      split
      · simp [hd, EventStream.swapBlocks, deliveredLog, deliveredMetric,
          currentLogEvents, currentMetricEvents, emittedLog, emittedMetric]
      · simp [hd, deliveredLog, deliveredMetric, currentLogEvents,
          currentMetricEvents, emittedLog, emittedMetric]
    | some s =>
      simp only [htl]
      split
      · simp [hd, EventStream.swapBlocks, deliveredLog, deliveredMetric,
          currentLogEvents, currentMetricEvents, emittedLog, emittedMetric]
      · simp [hd, deliveredLog, deliveredMetric, currentLogEvents,
          currentMetricEvents, emittedLog, emittedMetric]
  | opFlushLog now =>
    simp [applyOp, flushLogStream, hd, flushLogStreamImpl, EventStream.swapBlocks,
      EventBlock.close, deliveredLog, deliveredMetric, currentLogEvents,
      currentMetricEvents, emittedLog, emittedMetric, mkBlock]
  | opFlushMetric now =>
    simp [applyOp, flushMetricStream, hd, flushMetricStreamImpl, EventStream.swapBlocks,
      EventBlock.close, deliveredLog, deliveredMetric, currentLogEvents,
      currentMetricEvents, emittedLog, emittedMetric, mkBlock]
  | opInit p l m t =>
    simp [applyOp, dispatchInit, hd, deliveredLog, deliveredMetric, currentLogEvents,
      currentMetricEvents, emittedLog, emittedMetric]
  | opShutdown now => simp [DispatchOp.isShutdown] at hop

/-! ## Claims C1, C6, C7, C8 -/

/-- C1: for any sequence of entry-point calls on a live dispatch (any mix of
log, metric and span emissions and explicit flushes — everything short of
`Shutdown`), no admitted event is lost: the concatenation, in delivery
order, of the event contents of every block handed to the sink plus the
stream's current (unsealed) block equals the emission sequence, for the log
and the metric stream alike; and a push that crosses the full threshold
triggers rotation — `SwapBlocks` to a fresh empty block, seal with `now`,
hand the sealed block to the sink — never discard. -/
theorem C1_rotation_never_discards (st : GState) (hs : st.gDispatch.isSome = true)
    (ops : List DispatchOp) (hops : ∀ op ∈ ops, op.isShutdown = false) :
    ((runOps st ops).gDispatch.isSome = true ∧
      deliveredLog (runOps st ops).sinkCalls ++ currentLogEvents (runOps st ops)
        = deliveredLog st.sinkCalls ++ currentLogEvents st ++ emittedLog ops ∧
      deliveredMetric (runOps st ops).sinkCalls ++ currentMetricEvents (runOps st ops)
        = deliveredMetric st.sinkCalls ++ currentMetricEvents st ++ emittedMetric ops) ∧
    (∀ (d1 : DispatchD) (e : LogRecord) (now : Nat) (tl : Option (EventStream SpanRecord))
        (calls : List SinkCall),
      ({ d1 with logStream := d1.logStream.push e } : DispatchD).logStream.isFull
          LogRecord.pushBytes →
      queueLogEntry e now ⟨some d1, tl, calls⟩ =
        ⟨some { d1 with logStream :=
                  ⟨mkBlock LogRecord now d1.logBufferSize, d1.logBufferSize - LOG_PADDING⟩ },
         tl,
         calls ++ [.onProcessLogBlock
            (((d1.logStream.push e).current).close now)]⟩) := by
  constructor
  · induction ops generalizing st with
    | nil => simpa [runOps, emittedLog, emittedMetric] using hs
    | cons op ops ih =>
      obtain ⟨h1, h2, h3⟩ := applyOp_preserves st hs op (hops op (by simp))
      have hrun : runOps st (op :: ops) = runOps (applyOp st op) ops := rfl
      obtain ⟨g1, g2, g3⟩ := ih (applyOp st op) h1 (fun x hx => hops x (by simp [hx]))
      refine ⟨g1, ?_, ?_⟩
      · rw [hrun] at *
        rw [g2, h2]
        simp [emittedLog, List.flatMap_cons]
      · rw [hrun] at *
        rw [g3, h3]
        simp [emittedMetric, List.flatMap_cons]
  · intro d1 e now tl calls hfull
    simp only [queueLogEntry]
    rw [if_pos hfull]
    simp [flushLogStreamImpl, EventStream.swapBlocks, EventStream.push, EventBlock.close,
      mkBlock]

theorem C1_rotation_never_discards_witness :
    (((⟨some ⟨⟨⟨0, none, [], 200⟩, 72⟩, ⟨⟨0, none, [], 100⟩, 68⟩, 200, 100, 100⟩,
        none, []⟩ : GState).gDispatch.isSome = true) ∧
     (∀ op ∈ [DispatchOp.emitLog (.staticStr ⟨1, 5⟩) 6,
              DispatchOp.emitLog (.staticStr ⟨2, 7⟩) 8,
              DispatchOp.emitMetric (.int 3 4 9) 10,
              DispatchOp.emitLog (.staticStr ⟨4, 11⟩) 12,
              DispatchOp.emitLog (.staticStr ⟨5, 13⟩) 14,
              DispatchOp.emitLog (.staticStr ⟨6, 15⟩) 16,
              DispatchOp.opFlushLog 17], op.isShutdown = false)) ∧
    (deliveredLog (runOps
        ⟨some ⟨⟨⟨0, none, [], 200⟩, 72⟩, ⟨⟨0, none, [], 100⟩, 68⟩, 200, 100, 100⟩, none, []⟩
        [DispatchOp.emitLog (.staticStr ⟨1, 5⟩) 6,
         DispatchOp.emitLog (.staticStr ⟨2, 7⟩) 8,
         DispatchOp.emitMetric (.int 3 4 9) 10,
         DispatchOp.emitLog (.staticStr ⟨4, 11⟩) 12,
         DispatchOp.emitLog (.staticStr ⟨5, 13⟩) 14,
         DispatchOp.emitLog (.staticStr ⟨6, 15⟩) 16,
         DispatchOp.opFlushLog 17]).sinkCalls ++
      currentLogEvents (runOps
        ⟨some ⟨⟨⟨0, none, [], 200⟩, 72⟩, ⟨⟨0, none, [], 100⟩, 68⟩, 200, 100, 100⟩, none, []⟩
        [DispatchOp.emitLog (.staticStr ⟨1, 5⟩) 6,
         DispatchOp.emitLog (.staticStr ⟨2, 7⟩) 8,
         DispatchOp.emitMetric (.int 3 4 9) 10,
         DispatchOp.emitLog (.staticStr ⟨4, 11⟩) 12,
         DispatchOp.emitLog (.staticStr ⟨5, 13⟩) 14,
         DispatchOp.emitLog (.staticStr ⟨6, 15⟩) 16,
         DispatchOp.opFlushLog 17])
      = [.staticStr ⟨1, 5⟩, .staticStr ⟨2, 7⟩, .staticStr ⟨4, 11⟩,
         .staticStr ⟨5, 13⟩, .staticStr ⟨6, 15⟩]) := by
  refine ⟨⟨rfl, by decide⟩, ?_⟩
  have h := C1_rotation_never_discards
    ⟨some ⟨⟨⟨0, none, [], 200⟩, 72⟩, ⟨⟨0, none, [], 100⟩, 68⟩, 200, 100, 100⟩, none, []⟩
    rfl
    [DispatchOp.emitLog (.staticStr ⟨1, 5⟩) 6,
     DispatchOp.emitLog (.staticStr ⟨2, 7⟩) 8,
     DispatchOp.emitMetric (.int 3 4 9) 10,
     DispatchOp.emitLog (.staticStr ⟨4, 11⟩) 12,
     DispatchOp.emitLog (.staticStr ⟨5, 13⟩) 14,
     DispatchOp.emitLog (.staticStr ⟨6, 15⟩) 16,
     DispatchOp.opFlushLog 17]
    (by decide)
  rw [h.1.2.1]
  decide

/-- C6: `Dispatch::Init` is idempotent.  Starting from the unset singleton,
the first `Init` installs the singleton and emits exactly
`OnStartup`, `OnInitLogStream`, `OnInitMetricStream` in that order; any
number of further `Init` calls (with any parameters) change nothing and emit
nothing, so the sink observes exactly one `OnStartup`. -/
theorem C6_init_idempotent (p : Nat × Nat × Nat × Nat) (ps : List (Nat × Nat × Nat × Nat)) :
    (ps.foldl (fun s q => dispatchInit q.1 q.2.1 q.2.2.1 q.2.2.2 s)
        (dispatchInit p.1 p.2.1 p.2.2.1 p.2.2.2 initialState))
      = dispatchInit p.1 p.2.1 p.2.2.1 p.2.2.2 initialState ∧
    (dispatchInit p.1 p.2.1 p.2.2.1 p.2.2.2 initialState).sinkCalls
      = [.onStartup, .onInitLogStream, .onInitMetricStream] ∧
    (dispatchInit p.1 p.2.1 p.2.2.1 p.2.2.2 initialState).gDispatch.isSome = true ∧
    ((dispatchInit p.1 p.2.1 p.2.2.1 p.2.2.2 initialState).sinkCalls.count .onStartup) = 1 := by
  have hfirst : (dispatchInit p.1 p.2.1 p.2.2.1 p.2.2.2 initialState).gDispatch.isSome = true := by
    simp [dispatchInit, initialState]
  refine ⟨?_, by simp [dispatchInit, initialState], hfirst, by simp [dispatchInit, initialState]⟩
  generalize hst : dispatchInit p.1 p.2.1 p.2.2.1 p.2.2.2 initialState = st1
  rw [hst] at hfirst
  induction ps with
  | nil => rfl
  | cons q qs ih =>
    have hq : dispatchInit q.1 q.2.1 q.2.2.1 q.2.2.2 st1 = st1 := by
      obtain ⟨d, hd⟩ := Option.isSome_iff_exists.mp hfirst
      simp [dispatchInit, hd]
    simpa [hq] using ih

/-- C7: `Shutdown()`, called while the dispatch singleton exists, force-flushes
the log and metric streams through the sink's `OnShutdown` regardless of
fullness — the two sealed blocks carrying every event of the current blocks
are received by the sink before the `OnShutdown` callback completes — and
then clears the singleton. -/
theorem C7_shutdown_flushes_and_clears (st : GState) (d : DispatchD)
    (h : st.gDispatch = some d) (now : Nat) :
    dispatchShutdown now st =
      ⟨none, st.threadLocal,
        st.sinkCalls
          ++ [.onProcessLogBlock (d.logStream.current.close now),
              .onProcessMetricBlock (d.metricStream.current.close now),
              .onShutdown]⟩ ∧
    deliveredLog (dispatchShutdown now st).sinkCalls
      = deliveredLog st.sinkCalls ++ d.logStream.current.events ∧
    deliveredMetric (dispatchShutdown now st).sinkCalls
      = deliveredMetric st.sinkCalls ++ d.metricStream.current.events := by
  have hmain : dispatchShutdown now st =
      ⟨none, st.threadLocal,
        st.sinkCalls
          ++ [.onProcessLogBlock (d.logStream.current.close now),
              .onProcessMetricBlock (d.metricStream.current.close now),
              .onShutdown]⟩ := by
    simp [dispatchShutdown, flushLogStream, flushMetricStream, h, flushLogStreamImpl,
      flushMetricStreamImpl, EventStream.swapBlocks, EventBlock.close, mkBlock]
  refine ⟨hmain, ?_, ?_⟩ <;>
    simp [hmain, deliveredLog, deliveredMetric, EventBlock.close]

theorem C7_shutdown_flushes_and_clears_witness :
    ((⟨some ⟨⟨⟨0, none, [.staticStr ⟨1, 5⟩], 200⟩, 72⟩,
             ⟨⟨0, none, [.int 2 3 6], 100⟩, 68⟩, 200, 100, 100⟩,
       none, [.onStartup]⟩ : GState).gDispatch
        = some ⟨⟨⟨0, none, [.staticStr ⟨1, 5⟩], 200⟩, 72⟩,
                ⟨⟨0, none, [.int 2 3 6], 100⟩, 68⟩, 200, 100, 100⟩) ∧
    dispatchShutdown 9
        ⟨some ⟨⟨⟨0, none, [.staticStr ⟨1, 5⟩], 200⟩, 72⟩,
               ⟨⟨0, none, [.int 2 3 6], 100⟩, 68⟩, 200, 100, 100⟩,
         none, [.onStartup]⟩ =
      ⟨none, none,
        [.onStartup,
         .onProcessLogBlock ⟨0, some 9, [.staticStr ⟨1, 5⟩], 200⟩,
         .onProcessMetricBlock ⟨0, some 9, [.int 2 3 6], 100⟩,
         .onShutdown]⟩ :=
  ⟨rfl, by
    have h := C7_shutdown_flushes_and_clears
      ⟨some ⟨⟨⟨0, none, [.staticStr ⟨1, 5⟩], 200⟩, 72⟩,
             ⟨⟨0, none, [.int 2 3 6], 100⟩, 68⟩, 200, 100, 100⟩,
       none, [.onStartup]⟩
      ⟨⟨⟨0, none, [.staticStr ⟨1, 5⟩], 200⟩, 72⟩,
       ⟨⟨0, none, [.int 2 3 6], 100⟩, 68⟩, 200, 100, 100⟩
      rfl 9
    simpa [EventBlock.close] using h.1⟩

/-- C8 counterexample: the claim says that after `Shutdown` has cleared the
singleton, EVERY emission entry point returns without appending the event to
any stream's block.  But `GetCurrentThreadStream` returns an
already-installed `thread_local` stream without consulting the singleton, so
`QueueThreadEvent` on such a thread still appends: with the singleton
cleared and a live thread-local stream holding an empty block, a span
emission changes the state, appending the event to that block. -/
theorem C8_counterexample :
    (queueThreadEvent (.beginSpan 1 5) 6
        ⟨none, some ⟨⟨0, none, [], 1000⟩, 968⟩, []⟩).threadLocal
      = some ⟨⟨0, none, [.beginSpan 1 5], 1000⟩, 968⟩ ∧
    queueThreadEvent (.beginSpan 1 5) 6 ⟨none, some ⟨⟨0, none, [], 1000⟩, 968⟩, []⟩
      ≠ ⟨none, some ⟨⟨0, none, [], 1000⟩, 968⟩, []⟩ := by
  decide

/-- C8 (amended): after `Shutdown` has cleared the dispatch singleton, log
and metric emissions are silently dropped, and a thread-span emission from a
thread with no installed thread-local stream is silently dropped (no stream
is created, no sink callback runs); but a thread whose thread-local stream
already exists keeps appending span events to that stream's current block —
without any sink callback, stream creation, or rotation. -/
theorem C8_amended_post_shutdown (st : GState) (h : st.gDispatch = none)
    (e : LogRecord) (m : MetricRecord) (sp : SpanRecord) (now : Nat) :
    queueLogEntry e now st = st ∧
    queueMetric m now st = st ∧
    (st.threadLocal = none → queueThreadEvent sp now st = st) ∧
    (∀ s, st.threadLocal = some s →
      queueThreadEvent sp now st = { st with threadLocal := some (s.push sp) }) := by
  refine ⟨by simp [queueLogEntry, h], by simp [queueMetric, h], ?_, ?_⟩
  · intro htl
    simp [queueThreadEvent, htl, h]
  · intro s htl
    simp only [queueThreadEvent, htl, h]
    split <;> rfl

theorem C8_amended_post_shutdown_witness :
    ((⟨none, some ⟨⟨0, none, [], 1000⟩, 968⟩, []⟩ : GState).gDispatch = none) ∧
    (queueLogEntry (.staticStr ⟨1, 2⟩) 3 ⟨none, some ⟨⟨0, none, [], 1000⟩, 968⟩, []⟩
        = ⟨none, some ⟨⟨0, none, [], 1000⟩, 968⟩, []⟩ ∧
      queueMetric (.int 1 2 3) 3 ⟨none, some ⟨⟨0, none, [], 1000⟩, 968⟩, []⟩
        = ⟨none, some ⟨⟨0, none, [], 1000⟩, 968⟩, []⟩ ∧
      ((⟨none, some ⟨⟨0, none, [], 1000⟩, 968⟩, []⟩ : GState).threadLocal = none →
        queueThreadEvent (.beginSpan 1 5) 6 ⟨none, some ⟨⟨0, none, [], 1000⟩, 968⟩, []⟩
          = ⟨none, some ⟨⟨0, none, [], 1000⟩, 968⟩, []⟩) ∧
      (∀ s, (⟨none, some ⟨⟨0, none, [], 1000⟩, 968⟩, []⟩ : GState).threadLocal = some s →
        queueThreadEvent (.beginSpan 1 5) 6 ⟨none, some ⟨⟨0, none, [], 1000⟩, 968⟩, []⟩
          = ⟨none, some (s.push (.beginSpan 1 5)), []⟩)) :=
  ⟨rfl, C8_amended_post_shutdown ⟨none, some ⟨⟨0, none, [], 1000⟩, 968⟩, []⟩ rfl
    (.staticStr ⟨1, 2⟩) (.int 1 2 3) (.beginSpan 1 5) 6⟩

/-! ## Time bounds on blocks (claim C5)

The clock readings of a trace are nondecreasing (`Cycles64` is monotone);
every block records `begin` at installation and `end` at sealing, and every
event records the caller's reading.  The invariant below tracks, for each
live block, that all content times lie between the block's begin and the
latest reading — except that the head event of a thread stream's block is
exempt from the lower bound: its timestamp is captured before
`GetCurrentThreadStream` installs the stream's first block. -/

/-- Last clock reading performed by an operation. -/
def DispatchOp.endTime : DispatchOp → Nat
  | .emitLog _ now => now
  | .emitMetric _ now => now
  | .emitSpan _ now => now
  | .opFlushLog now => now
  | .opFlushMetric now => now
  | .opInit p _ _ _ => p
  | .opShutdown now => now

/-- Invariant of a live (unsealed) block at clock bound `tcur`: `begin` and
all event times are at most `tcur`, and all events past the first
`exemptHead` have times at least `begin`. -/
def blockUpTo {E : Type} (ts : E → Option Nat) (exemptHead tcur : Nat)
    (b : EventBlock E) : Prop :=
  b.beginTs ≤ tcur ∧
  (∀ e ∈ b.events, ∀ t, ts e = some t → t ≤ tcur) ∧
  (∀ e ∈ b.events.drop exemptHead, ∀ t, ts e = some t → b.beginTs ≤ t)

/-- The claim's property of a sealed block (with the head exemption). -/
def sealedOk {E : Type} (ts : E → Option Nat) (exemptHead : Nat) (b : EventBlock E) : Prop :=
  ∃ te, b.endTs = some te ∧
    (∀ e ∈ b.events, ∀ t, ts e = some t → t ≤ te) ∧
    (∀ e ∈ b.events.drop exemptHead, ∀ t, ts e = some t → b.beginTs ≤ t)

/-- Every block delivered to the sink satisfies the time bounds: log and
metric blocks fully, thread blocks with the head exemption. -/
def sinkTimesOk (calls : List SinkCall) : Prop :=
  ∀ c ∈ calls,
    match c with
    | .onProcessLogBlock b => sealedOk LogRecord.ts 0 b
    | .onProcessMetricBlock b => sealedOk (fun m => some m.ts) 0 b
    | .onProcessThreadBlock b => sealedOk (fun s => some s.ts) 1 b
    | _ => True

def stateTimesOk (tcur : Nat) (st : GState) : Prop :=
  sinkTimesOk st.sinkCalls ∧
  (∀ d, st.gDispatch = some d →
    blockUpTo LogRecord.ts 0 tcur d.logStream.current ∧
    blockUpTo (fun m => some m.ts) 0 tcur d.metricStream.current) ∧
  (∀ s, st.threadLocal = some s → blockUpTo (fun sp => some sp.ts) 1 tcur s.current)

theorem blockUpTo_mono {E : Type} (ts : E → Option Nat) (k tcur tnew : Nat)
    (b : EventBlock E) (h : blockUpTo ts k tcur b) (hle : tcur ≤ tnew) :
    blockUpTo ts k tnew b :=
  ⟨h.1.trans hle, fun e he t het => (h.2.1 e he t het).trans hle, h.2.2⟩

theorem stateTimesOk_mono (tcur tnew : Nat) (st : GState)
    (h : stateTimesOk tcur st) (hle : tcur ≤ tnew) : stateTimesOk tnew st :=
  ⟨h.1,
    fun d hd => ⟨blockUpTo_mono _ _ _ _ _ (h.2.1 d hd).1 hle,
      blockUpTo_mono _ _ _ _ _ (h.2.1 d hd).2 hle⟩,
    fun s hs => blockUpTo_mono _ _ _ _ _ (h.2.2 s hs) hle⟩

theorem mem_drop_append_singleton {α : Type} (k : Nat) (es : List α) (e x : α)
    (hx : x ∈ (es ++ [e]).drop k) : x ∈ es.drop k ∨ x = e := by
  rw [List.drop_append_eq_append_drop] at hx
  rcases List.mem_append.mp hx with h | h
  · exact Or.inl h
  · exact Or.inr (by simpa using List.drop_subset _ _ h)

/-- Appending an event whose time is between the current bound and `now`
keeps the block invariant (at the new bound `now`). -/
theorem blockUpTo_push {E : Type} (ts : E → Option Nat) (k tcur now : Nat)
    (b : EventBlock E) (e : E) (hb : blockUpTo ts k tcur b) (hnow : tcur ≤ now)
    (hts : ∀ t, ts e = some t → tcur ≤ t ∧ t ≤ now) :
    blockUpTo ts k now { b with events := b.events ++ [e] } := by
  obtain ⟨h1, h2, h3⟩ := hb
  refine ⟨h1.trans hnow, ?_, ?_⟩
  · intro x hx t het
    rcases List.mem_append.mp hx with h | h
    · exact (h2 x h t het).trans hnow
    · rcases List.mem_singleton.mp h with rfl
      exact (hts t het).2
  · intro x hx t het
    rcases mem_drop_append_singleton k b.events e x hx with h | h
    · exact h3 x h t het
    · rcases h with rfl
      exact h1.trans (hts t het).1

/-- Sealing a block at the current bound yields the sealed-block property. -/
theorem blockUpTo_close {E : Type} (ts : E → Option Nat) (k now : Nat)
    (b : EventBlock E) (hb : blockUpTo ts k now b) :
    sealedOk ts k (b.close now) :=
  ⟨now, rfl, hb.2.1, hb.2.2⟩

theorem sinkTimesOk_append (calls : List SinkCall) (c : SinkCall)
    (h : sinkTimesOk calls)
    (hc : match c with
      | .onProcessLogBlock b => sealedOk LogRecord.ts 0 b
      | .onProcessMetricBlock b => sealedOk (fun m => some m.ts) 0 b
      | .onProcessThreadBlock b => sealedOk (fun s => some s.ts) 1 b
      | _ => True) :
    sinkTimesOk (calls ++ [c]) := by
  intro x hx
  rcases List.mem_append.mp hx with hmem | hmem
  · exact h x hmem
  · rcases List.mem_singleton.mp hmem with rfl
    exact hc

/-- A fresh block installed at time `now` satisfies the invariant at `now`. -/
theorem blockUpTo_mkBlock {E : Type} (ts : E → Option Nat) (k now cap : Nat) :
    blockUpTo ts k now (mkBlock E now cap) :=
  ⟨le_rfl, by simp [mkBlock], by simp [mkBlock]⟩

theorem chain_emit_bounds (tcur now : Nat) (ots : Option Nat)
    (h : List.Chain' (· ≤ ·) (tcur :: (ots.toList ++ [now]))) :
    tcur ≤ now ∧ ∀ t, ots = some t → tcur ≤ t ∧ t ≤ now := by
  cases ots with
  | none =>
    simp only [Option.toList_none, List.nil_append, List.chain'_cons, List.chain'_singleton,
      and_true] at h
    exact ⟨h, by simp⟩
  | some t =>
    simp only [Option.toList_some, List.cons_append, List.nil_append, List.chain'_cons,
      List.chain'_singleton, and_true] at h
    exact ⟨h.1.trans h.2, fun t' ht' => by cases ht'; exact ⟨h.1, h.2⟩⟩

theorem chain_single_bound (tcur now : Nat)
    (h : List.Chain' (· ≤ ·) [tcur, now]) : tcur ≤ now := by
  simp only [List.chain'_cons, List.chain'_singleton, and_true] at h
  exact h

theorem chain_pair_bounds (tcur t now : Nat)
    (h : List.Chain' (· ≤ ·) [tcur, t, now]) : tcur ≤ t ∧ t ≤ now := by
  simp only [List.chain'_cons, List.chain'_singleton, and_true] at h
  exact h

/-- One trace step preserves the time invariant, moving the clock bound to
the operation's last reading. -/
theorem stateTimesOk_step (tcur : Nat) (st : GState) (op : DispatchOp)
    (hok : stateTimesOk tcur st)
    (hch : List.Chain' (· ≤ ·) (tcur :: op.times)) :
    stateTimesOk op.endTime (applyOp st op) := by
  obtain ⟨hsink, hstreams, hthread⟩ := hok
  cases op with
  | emitLog e now =>
    obtain ⟨hnow, hts⟩ := chain_emit_bounds tcur now e.ts hch
    cases hd : st.gDispatch with
    | none =>
      simp only [applyOp, queueLogEntry, hd, DispatchOp.endTime]
      exact stateTimesOk_mono tcur now st ⟨hsink, hstreams, hthread⟩ hnow
    | some d =>
      have hcur := hstreams d hd
      have hpush : blockUpTo LogRecord.ts 0 now ((d.logStream.push e).current) := by
        simpa [EventStream.push] using
          blockUpTo_push LogRecord.ts 0 tcur now d.logStream.current e hcur.1 hnow hts
      simp only [applyOp, queueLogEntry, hd, DispatchOp.endTime, flushLogStreamImpl,
        EventStream.swapBlocks]
      split
      · refine ⟨?_, ?_, ?_⟩
        · exact sinkTimesOk_append _ _ hsink (blockUpTo_close _ _ _ _ hpush)
        · intro d' hd'
          injection hd' with hd'
          subst hd'
          exact ⟨blockUpTo_mkBlock _ _ _ _, blockUpTo_mono _ _ _ _ _ hcur.2 hnow⟩
        · intro s hs
          exact blockUpTo_mono _ _ _ _ _ (hthread s hs) hnow
      · refine ⟨hsink, ?_, ?_⟩
        · intro d' hd'
          injection hd' with hd'
          subst hd'
          exact ⟨hpush, blockUpTo_mono _ _ _ _ _ hcur.2 hnow⟩
        · intro s hs
          exact blockUpTo_mono _ _ _ _ _ (hthread s hs) hnow
  | emitMetric m now =>
    obtain ⟨htl, htu⟩ := chain_pair_bounds tcur m.ts now (by
      simpa [DispatchOp.times] using hch)
    have hnow : tcur ≤ now := htl.trans htu
    cases hd : st.gDispatch with
    | none =>
      simp only [applyOp, queueMetric, hd, DispatchOp.endTime]
      exact stateTimesOk_mono tcur now st ⟨hsink, hstreams, hthread⟩ hnow
    | some d =>
      have hcur := hstreams d hd
      have hpush : blockUpTo (fun x => some x.ts) 0 now ((d.metricStream.push m).current) := by
        refine blockUpTo_push _ 0 tcur now d.metricStream.current m hcur.2 hnow ?_
        intro t ht
        cases ht
        exact ⟨htl, htu⟩
      simp only [applyOp, queueMetric, hd, DispatchOp.endTime, flushMetricStreamImpl,
        EventStream.swapBlocks]
      split
      · refine ⟨?_, ?_, ?_⟩
        · exact sinkTimesOk_append _ _ hsink (blockUpTo_close _ _ _ _ hpush)
        · intro d' hd'
          injection hd' with hd'
          subst hd'
          exact ⟨blockUpTo_mono _ _ _ _ _ hcur.1 hnow, blockUpTo_mkBlock _ _ _ _⟩
        · intro s hs
          exact blockUpTo_mono _ _ _ _ _ (hthread s hs) hnow
      · refine ⟨hsink, ?_, ?_⟩
        · intro d' hd'
          injection hd' with hd'
          subst hd'
          exact ⟨blockUpTo_mono _ _ _ _ _ hcur.1 hnow, hpush⟩
        · intro s hs
          exact blockUpTo_mono _ _ _ _ _ (hthread s hs) hnow
  | emitSpan e now =>
    obtain ⟨htl, htu⟩ := chain_pair_bounds tcur e.ts now (by
      simpa [DispatchOp.times] using hch)
    have hnow : tcur ≤ now := htl.trans htu
    cases htlo : st.threadLocal with
    | some s =>
      have hpush : blockUpTo (fun x => some x.ts) 1 now ((s.push e).current) := by
        refine blockUpTo_push _ 1 tcur now s.current e (hthread s htlo) hnow ?_
        intro t ht
        cases ht
        exact ⟨htl, htu⟩
      simp only [applyOp, queueThreadEvent, htlo, DispatchOp.endTime, EventStream.swapBlocks]
      split
      · cases hd : st.gDispatch with
        | none =>
          simp only [hd]
          refine ⟨hsink, ?_, ?_⟩
          · intro d' hd'
            simp at hd'
          · intro s' hs'
            injection hs' with hs'
            subst hs'
            exact hpush
        | some d =>
          simp only [hd]
          refine ⟨?_, ?_, ?_⟩
          · exact sinkTimesOk_append _ _ hsink (blockUpTo_close _ _ _ _ hpush)
          · intro d' hd'
            injection hd' with hd'
            subst hd'
            exact ⟨blockUpTo_mono _ _ _ _ _ (hstreams d hd).1 hnow,
              blockUpTo_mono _ _ _ _ _ (hstreams d hd).2 hnow⟩
          · intro s' hs'
            injection hs' with hs'
            subst hs'
            exact blockUpTo_mkBlock _ _ _ _
      · refine ⟨hsink, ?_, ?_⟩
        · intro d' hd'
          exact ⟨blockUpTo_mono _ _ _ _ _ (hstreams d' hd').1 hnow,
            blockUpTo_mono _ _ _ _ _ (hstreams d' hd').2 hnow⟩
        · intro s' hs'
          injection hs' with hs'
          subst hs'
          exact hpush
    | none =>
      cases hd : st.gDispatch with
      | none =>
        simp only [applyOp, queueThreadEvent, htlo, hd, DispatchOp.endTime]
        exact stateTimesOk_mono tcur now st ⟨hsink, hstreams, hthread⟩ hnow
      | some d =>
        have hfresh : blockUpTo (fun x => some x.ts) 1 now
            (((EventStream.mkStream (mkBlock SpanRecord now d.threadBufferSize)
              THREAD_PADDING).push e).current) := by
          refine ⟨le_rfl, ?_, ?_⟩
          · intro x hx t ht
            simp only [EventStream.push, EventStream.mkStream, mkBlock,
              List.nil_append, List.mem_singleton] at hx
            subst hx
            cases ht
            exact htu
          · intro x hx
            simp [EventStream.push, EventStream.mkStream, mkBlock] at hx
        have hsink1 : sinkTimesOk (st.sinkCalls ++ [SinkCall.onInitThreadStream]) :=
          sinkTimesOk_append _ _ hsink trivial
        simp only [applyOp, queueThreadEvent, htlo, hd, DispatchOp.endTime,
          EventStream.swapBlocks]
        split
        · refine ⟨?_, ?_, ?_⟩
          · exact sinkTimesOk_append _ _ hsink1 (blockUpTo_close _ _ _ _ hfresh)
          · intro d' hd'
            injection hd' with hd'
            subst hd'
            exact ⟨blockUpTo_mono _ _ _ _ _ (hstreams d hd).1 hnow,
              blockUpTo_mono _ _ _ _ _ (hstreams d hd).2 hnow⟩
          · intro s' hs'
            injection hs' with hs'
            subst hs'
            exact blockUpTo_mkBlock _ _ _ _
        · refine ⟨hsink1, ?_, ?_⟩
          · intro d' hd'
            injection hd' with hd'
            subst hd'
            exact ⟨blockUpTo_mono _ _ _ _ _ (hstreams d hd).1 hnow,
              blockUpTo_mono _ _ _ _ _ (hstreams d hd).2 hnow⟩
          · intro s' hs'
            injection hs' with hs'
            subst hs'
            exact hfresh
  | opFlushLog now =>
    have hnow : tcur ≤ now := chain_single_bound tcur now (by
      simpa [DispatchOp.times] using hch)
    cases hd : st.gDispatch with
    | none =>
      simp only [applyOp, flushLogStream, hd, DispatchOp.endTime]
      exact stateTimesOk_mono tcur now st ⟨hsink, hstreams, hthread⟩ hnow
    | some d =>
      have hcur := hstreams d hd
      simp only [applyOp, flushLogStream, hd, DispatchOp.endTime, flushLogStreamImpl,
        EventStream.swapBlocks]
      refine ⟨?_, ?_, ?_⟩
      · exact sinkTimesOk_append _ _ hsink
          (blockUpTo_close _ _ _ _ (blockUpTo_mono _ _ _ _ _ hcur.1 hnow))
      · intro d' hd'
        injection hd' with hd'
        subst hd'
        exact ⟨blockUpTo_mkBlock _ _ _ _, blockUpTo_mono _ _ _ _ _ hcur.2 hnow⟩
      · intro s hs
        exact blockUpTo_mono _ _ _ _ _ (hthread s hs) hnow
  | opFlushMetric now =>
    have hnow : tcur ≤ now := chain_single_bound tcur now (by
      simpa [DispatchOp.times] using hch)
    cases hd : st.gDispatch with
    | none =>
      simp only [applyOp, flushMetricStream, hd, DispatchOp.endTime]
      exact stateTimesOk_mono tcur now st ⟨hsink, hstreams, hthread⟩ hnow
    | some d =>
      have hcur := hstreams d hd
      simp only [applyOp, flushMetricStream, hd, DispatchOp.endTime, flushMetricStreamImpl,
        EventStream.swapBlocks]
      refine ⟨?_, ?_, ?_⟩
      · exact sinkTimesOk_append _ _ hsink
          (blockUpTo_close _ _ _ _ (blockUpTo_mono _ _ _ _ _ hcur.2 hnow))
      · intro d' hd'
        injection hd' with hd'
        subst hd'
        exact ⟨blockUpTo_mono _ _ _ _ _ hcur.1 hnow, blockUpTo_mkBlock _ _ _ _⟩
      · intro s hs
        exact blockUpTo_mono _ _ _ _ _ (hthread s hs) hnow
  | opInit p l mz t =>
    have hnow : tcur ≤ p := by
      simp only [DispatchOp.times, List.chain'_cons, List.chain'_singleton, and_true] at hch
      exact hch
    cases hd : st.gDispatch with
    | some d =>
      simp only [applyOp, dispatchInit, hd]
      exact stateTimesOk_mono tcur p st ⟨hsink, hstreams, hthread⟩ hnow
    | none =>
      simp only [applyOp, dispatchInit, hd, DispatchOp.endTime]
      refine ⟨?_, ?_, ?_⟩
      · intro x hx
        rcases List.mem_append.mp hx with hmem | hmem
        · exact hsink x hmem
        · simp only [List.mem_cons, List.not_mem_nil, or_false] at hmem
          rcases hmem with rfl | rfl | rfl <;> trivial
      · intro d' hd'
        injection hd' with hd'
        subst hd'
        exact ⟨blockUpTo_mkBlock _ _ _ _, blockUpTo_mkBlock _ _ _ _⟩
      · intro s hs
        exact blockUpTo_mono _ _ _ _ _ (hthread s hs) hnow
  | opShutdown now =>
    have hnow : tcur ≤ now := chain_single_bound tcur now (by
      simpa [DispatchOp.times] using hch)
    cases hd : st.gDispatch with
    | none =>
      simp only [applyOp, dispatchShutdown, hd, DispatchOp.endTime]
      exact stateTimesOk_mono tcur now st ⟨hsink, hstreams, hthread⟩ hnow
    | some d =>
      have hcur := hstreams d hd
      simp only [applyOp, dispatchShutdown, flushLogStream, flushMetricStream, hd,
        DispatchOp.endTime, flushLogStreamImpl, flushMetricStreamImpl,
        EventStream.swapBlocks]
      refine ⟨?_, ?_, ?_⟩
      · refine sinkTimesOk_append _ _ (sinkTimesOk_append _ _ (sinkTimesOk_append _ _
          hsink ?_) ?_) trivial
        · exact blockUpTo_close _ _ _ _ (blockUpTo_mono _ _ _ _ _ hcur.1 hnow)
        · exact blockUpTo_close _ _ _ _ (blockUpTo_mono _ _ _ _ _ hcur.2 hnow)
      · intro d' hd'
        simp at hd'
      · intro s hs
        exact blockUpTo_mono _ _ _ _ _ (hthread s hs) hnow

theorem times_getLast (tcur : Nat) (op : DispatchOp) :
    (tcur :: op.times).getLast? = some op.endTime := by
  cases op with
  | emitLog e now => cases he : e.ts <;> simp [DispatchOp.times, DispatchOp.endTime, he]
  | emitMetric m now => simp [DispatchOp.times, DispatchOp.endTime]
  | emitSpan e now => simp [DispatchOp.times, DispatchOp.endTime]
  | opFlushLog now => simp [DispatchOp.times, DispatchOp.endTime]
  | opFlushMetric now => simp [DispatchOp.times, DispatchOp.endTime]
  | opInit p l m t => simp [DispatchOp.times, DispatchOp.endTime]
  | opShutdown now => simp [DispatchOp.times, DispatchOp.endTime]

theorem stateTimesOk_run (tcur : Nat) (st : GState) (ops : List DispatchOp)
    (hok : stateTimesOk tcur st)
    (hch : List.Chain' (· ≤ ·) (tcur :: ops.flatMap DispatchOp.times)) :
    ∃ tend, stateTimesOk tend (runOps st ops) := by
  induction ops generalizing tcur st with
  | nil => exact ⟨tcur, hok⟩
  | cons op ops ih =>
    have hsplit : (tcur :: (op :: ops).flatMap DispatchOp.times)
        = (tcur :: op.times) ++ ops.flatMap DispatchOp.times := by
      simp [List.flatMap_cons]
    rw [hsplit, List.chain'_append] at hch
    obtain ⟨h1, h2, h3⟩ := hch
    have hstep := stateTimesOk_step tcur st op hok h1
    have hch' : List.Chain' (· ≤ ·) (op.endTime :: ops.flatMap DispatchOp.times) := by
      rw [List.chain'_cons']
      exact ⟨fun y hy => h3 op.endTime (Option.mem_def.mpr (times_getLast tcur op)) y hy, h2⟩
    exact ih op.endTime (applyOp st op) hstep hch'

/-- C5 (amended): over any trace of entry-point calls whose clock readings
are nondecreasing, every sealed log or metric block handed to the sink
satisfies `begin ≤ ts ≤ end` for every event timestamp; every sealed thread
block satisfies `ts ≤ end` for every event and `begin ≤ ts` for every event
but possibly the first one — the first span event of a thread stream is
stamped before `GetCurrentThreadStream` installs the stream's block, so it
may predate the block's begin time. -/
theorem C5_amended_sealed_block_time_bounds (ops : List DispatchOp)
    (hch : List.Chain' (· ≤ ·) (ops.flatMap DispatchOp.times)) :
    (∀ b, SinkCall.onProcessLogBlock b ∈ (runOps initialState ops).sinkCalls →
      ∃ te, b.endTs = some te ∧
        ∀ e ∈ b.events, ∀ t, LogRecord.ts e = some t → b.beginTs ≤ t ∧ t ≤ te) ∧
    (∀ b, SinkCall.onProcessMetricBlock b ∈ (runOps initialState ops).sinkCalls →
      ∃ te, b.endTs = some te ∧
        ∀ e ∈ b.events, b.beginTs ≤ e.ts ∧ e.ts ≤ te) ∧
    (∀ b, SinkCall.onProcessThreadBlock b ∈ (runOps initialState ops).sinkCalls →
      ∃ te, b.endTs = some te ∧ (∀ e ∈ b.events, e.ts ≤ te) ∧
        ∀ e ∈ b.events.drop 1, b.beginTs ≤ e.ts) := by
  have h0 : stateTimesOk 0 initialState := by
    refine ⟨fun c hc => ?_, fun d hd => ?_, fun s hs => ?_⟩
    · exact absurd hc (by simp [initialState])
    · simp [initialState] at hd
    · simp [initialState] at hs
  have hch0 : List.Chain' (· ≤ ·) (0 :: ops.flatMap DispatchOp.times) := by
    rw [List.chain'_cons']
    exact ⟨fun y _ => Nat.zero_le y, hch⟩
  obtain ⟨tend, htend⟩ := stateTimesOk_run 0 initialState ops h0 hch0
  have hsinkOk : sinkTimesOk (runOps initialState ops).sinkCalls := htend.1
  refine ⟨?_, ?_, ?_⟩
  · intro b hb
    obtain ⟨te, hte, hup, hlow⟩ := hsinkOk _ hb
    exact ⟨te, hte, fun e he t het => ⟨hlow e (by simpa using he) t het, hup e he t het⟩⟩
  · intro b hb
    obtain ⟨te, hte, hup, hlow⟩ := hsinkOk _ hb
    exact ⟨te, hte, fun e he => ⟨hlow e (by simpa using he) e.ts rfl, hup e he e.ts rfl⟩⟩
  · intro b hb
    obtain ⟨te, hte, hup, hlow⟩ := hsinkOk _ hb
    exact ⟨te, hte, fun e he => hup e he e.ts rfl, fun e he => hlow e he e.ts rfl⟩

theorem C5_amended_sealed_block_time_bounds_witness :
    List.Chain' (· ≤ ·)
      (([DispatchOp.opInit 0 200 100 100, DispatchOp.emitLog (.staticStr ⟨1, 3⟩) 4,
         DispatchOp.opFlushLog 7]).flatMap DispatchOp.times) ∧
    ((∀ b, SinkCall.onProcessLogBlock b ∈
        (runOps initialState [DispatchOp.opInit 0 200 100 100,
          DispatchOp.emitLog (.staticStr ⟨1, 3⟩) 4, DispatchOp.opFlushLog 7]).sinkCalls →
      ∃ te, b.endTs = some te ∧
        ∀ e ∈ b.events, ∀ t, LogRecord.ts e = some t → b.beginTs ≤ t ∧ t ≤ te) ∧
    (∀ b, SinkCall.onProcessMetricBlock b ∈
        (runOps initialState [DispatchOp.opInit 0 200 100 100,
          DispatchOp.emitLog (.staticStr ⟨1, 3⟩) 4, DispatchOp.opFlushLog 7]).sinkCalls →
      ∃ te, b.endTs = some te ∧
        ∀ e ∈ b.events, b.beginTs ≤ e.ts ∧ e.ts ≤ te) ∧
    (∀ b, SinkCall.onProcessThreadBlock b ∈
        (runOps initialState [DispatchOp.opInit 0 200 100 100,
          DispatchOp.emitLog (.staticStr ⟨1, 3⟩) 4, DispatchOp.opFlushLog 7]).sinkCalls →
      ∃ te, b.endTs = some te ∧ (∀ e ∈ b.events, e.ts ≤ te) ∧
        ∀ e ∈ b.events.drop 1, b.beginTs ≤ e.ts)) :=
  ⟨by simp [DispatchOp.times, LogRecord.ts, List.chain'_cons],
    C5_amended_sealed_block_time_bounds
      [DispatchOp.opInit 0 200 100 100, DispatchOp.emitLog (.staticStr ⟨1, 3⟩) 4,
       DispatchOp.opFlushLog 7]
      (by simp [DispatchOp.times, LogRecord.ts, List.chain'_cons])⟩

/-- C5 counterexample: a monotone-clock trace — `Init` at cycle 0, then a
single span emission whose timestamp 5 was read just before the call's own
`DualTime::Now()` read 6 installed the fresh thread stream's first block —
seals a thread block whose begin time 6 exceeds the contained event's
timestamp 5, refuting "the block's begin cycle count is less than or equal
to the timestamp of every event the block contains" for sealed blocks of
arbitrary streams.  (The tiny thread buffer, 33 bytes against padding 32,
only makes the block seal immediately.) -/
theorem C5_counterexample :
    List.Chain' (· ≤ ·)
      (([DispatchOp.opInit 0 1000 1000 33,
         DispatchOp.emitSpan (.beginSpan 1 5) 6]).flatMap DispatchOp.times) ∧
    SinkCall.onProcessThreadBlock ⟨6, some 6, [.beginSpan 1 5], 33⟩ ∈
      (runOps initialState
        [DispatchOp.opInit 0 1000 1000 33,
         DispatchOp.emitSpan (.beginSpan 1 5) 6]).sinkCalls ∧
    ¬ ((⟨6, some 6, [.beginSpan 1 5], 33⟩ : EventBlock SpanRecord).beginTs
        ≤ SpanRecord.ts (.beginSpan 1 5)) := by
  refine ⟨?_, by decide, by decide⟩
  simp [DispatchOp.times, SpanRecord.ts, List.chain'_cons]

/-! ## Dependency extraction (`LgnTelemetrySink/LogDependencies.h`)

`ExtractLogDependencies` is a visitor folded over a sealed block by
`ForEach`.  It keeps `Ids : TSet<const void*>` of already-emitted identities
and a dependency queue.  Pointers are modelled as their 64-bit values; the
static `LogMetadata` records live at addresses read through `LogMetaEnv`
(dereferencing a pointer always yields the same record, so a dependency's
payload — the flat copy made by `LogMetadataDependency` /
`StaticStringDependency` — is determined by its identity; the claims below
are about identities and order).  The visitor overloads:
string — add to the set, push `StaticStringDependency` if unseen;
metadata — add to the set and, if unseen, visit `Target`, `Msg`, `File`,
then push `LogMetadataDependency`; `LogStringInteropEvent` — visit only
`evt.Target`; `LogStaticStrEvent` — visit `evt.Desc`; a `StaticStringRef`
queue record — visit it as a string. -/

structure LogMetaEnv where
  target : Nat → Nat
  msg : Nat → Nat
  file : Nat → Nat

inductive LogDep where
  | str (id : Nat)
  | meta (id : Nat)
deriving DecidableEq, Repr

def LogDep.depId : LogDep → Nat
  | .str i => i
  | .meta i => i

structure ExtractState where
  ids : List Nat
  deps : List LogDep
deriving DecidableEq, Repr

/-- The string overload `operator()(const StaticStringRef&)`. -/
def visitStr (st : ExtractState) (i : Nat) : ExtractState :=
  if i ∈ st.ids then st
  else { ids := st.ids ++ [i], deps := st.deps ++ [.str i] }

def visitStrs (st : ExtractState) (ss : List Nat) : ExtractState :=
  ss.foldl visitStr st

/-- The metadata overload `operator()(const LogMetadata*)`: `Ids.Add` runs
first; an unseen record visits its three strings and then pushes its own
dependency record. -/
def visitMeta (env : LogMetaEnv) (st : ExtractState) (a : Nat) : ExtractState :=
  if a ∈ st.ids then st
  else
    let st4 := visitStrs { st with ids := st.ids ++ [a] }
      [env.target a, env.msg a, env.file a]
    { st4 with deps := st4.deps ++ [.meta a] }

def visitEvent (env : LogMetaEnv) (st : ExtractState) : LogRecord → ExtractState
  | .staticStr e => visitMeta env st e.desc
  | .interop e => visitStr st e.target.ptr
  | .staticRef r => visitStr st r.ptr

/-- Model of `ExtractBlockDependencies` for a log block: fold the visitor
over the block's events (one `ForEach` pass). -/
def extractLogDependencies (env : LogMetaEnv) (events : List LogRecord) : ExtractState :=
  events.foldl (visitEvent env) ⟨[], []⟩

/-- Identities referenced by one queue record. -/
def refIds (env : LogMetaEnv) : LogRecord → List Nat
  | .staticStr e => [e.desc, env.target e.desc, env.msg e.desc, env.file e.desc]
  | .interop e => [e.target.ptr]
  | .staticRef r => [r.ptr]

def refIdsAll (env : LogMetaEnv) (events : List LogRecord) : List Nat :=
  events.flatMap (refIds env)

/-- Metadata identities referenced by the block's events. -/
def metaAddrs (events : List LogRecord) : List Nat :=
  events.flatMap fun r =>
    match r with
    | .staticStr e => [e.desc]
    | _ => []

/-- Static string identities referenced by the block's events. -/
def strIds (env : LogMetaEnv) (events : List LogRecord) : List Nat :=
  events.flatMap fun r =>
    match r with
    | .staticStr e => [env.target e.desc, env.msg e.desc, env.file e.desc]
    | .interop e => [e.target.ptr]
    | .staticRef s => [s.ptr]

/-- Characterization of folding the string visitor over a string list:
the set gains exactly the unseen strings (each once, in first-visit order),
the queue gains exactly matching `str` dependencies, and afterwards every
visited string is in the set. -/
theorem visitStrs_spec (ss : List Nat) (st : ExtractState) :
    ∃ added : List Nat,
      (visitStrs st ss).ids = st.ids ++ added ∧
      (visitStrs st ss).deps = st.deps ++ added.map LogDep.str ∧
      added.Nodup ∧
      (∀ x ∈ added, x ∈ ss ∧ x ∉ st.ids) ∧
      (∀ s ∈ ss, s ∈ st.ids ++ added) := by
  induction ss generalizing st with
  | nil => exact ⟨[], by simp [visitStrs]⟩
  | cons s ss ih =>
    have hstep : visitStrs st (s :: ss) = visitStrs (visitStr st s) ss := rfl
    by_cases hs : s ∈ st.ids
    · have hv : visitStr st s = st := by simp [visitStr, hs]
      obtain ⟨added, h1, h2, h3, h4, h5⟩ := ih st
      refine ⟨added, by rw [hstep, hv]; exact h1, by rw [hstep, hv]; exact h2, h3, ?_, ?_⟩
      · exact fun x hx => ⟨List.mem_cons_of_mem _ (h4 x hx).1, (h4 x hx).2⟩
      · intro t ht
        rcases List.mem_cons.mp ht with rfl | ht
        · exact List.mem_append.mpr (Or.inl hs)
        · exact h5 t ht
    · have hv : visitStr st s =
          ⟨st.ids ++ [s], st.deps ++ [LogDep.str s]⟩ := by simp [visitStr, hs]
      obtain ⟨added, h1, h2, h3, h4, h5⟩ :=
        ih (⟨st.ids ++ [s], st.deps ++ [LogDep.str s]⟩ : ExtractState)
      dsimp only at h1 h2 h4 h5
      refine ⟨s :: added, ?_, ?_, ?_, ?_, ?_⟩
      · rw [hstep, hv, h1]; simp
      · rw [hstep, hv, h2]; simp
      · refine List.nodup_cons.mpr ⟨fun hmem => ?_, h3⟩
        exact (h4 s hmem).2 (by simp)
      · intro x hx
        rcases List.mem_cons.mp hx with rfl | hx
        · exact ⟨List.mem_cons_self _ _, hs⟩
        · obtain ⟨hx1, hx2⟩ := h4 x hx
          refine ⟨List.mem_cons_of_mem _ hx1, fun hmem => hx2 ?_⟩
          simp only [List.mem_append, List.mem_singleton]
          exact Or.inl hmem
      · intro t ht
        rcases List.mem_cons.mp ht with rfl | ht
        · simp
        · have := h5 t ht
          simp only [List.append_assoc, List.mem_append, List.mem_singleton,
            List.mem_cons] at this ⊢
          tauto

/-- The linear-decoder ordering contract: every metadata dependency in the
queue is preceded by string dependencies for its three strings. -/
def orderedDeps (env : LogMetaEnv) (deps : List LogDep) : Prop :=
  ∀ l1 a l2, deps = l1 ++ LogDep.meta a :: l2 →
    LogDep.str (env.target a) ∈ l1 ∧ LogDep.str (env.msg a) ∈ l1 ∧
      LogDep.str (env.file a) ∈ l1

theorem split_append_of_not_mem {α : Type} (A B l1 l2 : List α) (x : α)
    (h : A ++ B = l1 ++ x :: l2) (hx : x ∉ B) :
    ∃ l2', A = l1 ++ x :: l2' := by
  rcases List.append_eq_append_iff.mp h with ⟨a', _, ha2⟩ | ⟨c', hc1, hc2⟩
  · exact absurd (ha2 ▸ List.mem_append.mpr (Or.inr (List.mem_cons_self x l2))) hx
  · cases c' with
    | nil =>
      simp only [List.nil_append] at hc2
      exact absurd (hc2 ▸ List.mem_cons_self x l2) hx
    | cons y c'' =>
      obtain ⟨rfl, -⟩ : y = x ∧ l2 = c'' ++ B := by
        have := hc2
        simp only [List.cons_append] at this
        exact ⟨(List.cons.injEq _ _ _ _ ▸ this).1.symm, (List.cons.injEq _ _ _ _ ▸ this).2⟩
      exact ⟨c'', hc1⟩

theorem orderedDeps_append_strs (env : LogMetaEnv) (deps S : List LogDep)
    (hord : orderedDeps env deps) (hS : ∀ d ∈ S, ∀ a, d ≠ LogDep.meta a) :
    orderedDeps env (deps ++ S) := by
  intro l1 a l2 hsplit
  obtain ⟨l2', hA⟩ := split_append_of_not_mem deps S l1 l2 (LogDep.meta a) hsplit
    (fun hmem => hS _ hmem a rfl)
  exact hord l1 a l2' hA

theorem orderedDeps_append_meta (env : LogMetaEnv) (deps : List LogDep) (a : Nat)
    (hord : orderedDeps env deps)
    (ht : LogDep.str (env.target a) ∈ deps)
    (hm : LogDep.str (env.msg a) ∈ deps)
    (hf : LogDep.str (env.file a) ∈ deps) :
    orderedDeps env (deps ++ [LogDep.meta a]) := by
  intro l1 m l2 hsplit
  rcases List.eq_nil_or_concat l2 with rfl | ⟨l2', y, rfl⟩
  · obtain ⟨rfl, h2⟩ := List.append_inj' hsplit (by simp)
    obtain rfl : a = m := by
      have : LogDep.meta a = LogDep.meta m := by simpa using h2
      injection this
    exact ⟨ht, hm, hf⟩
  · have hsplit' : deps ++ [LogDep.meta a] = (l1 ++ LogDep.meta m :: l2') ++ [y] := by
      rw [hsplit]; simp
    obtain ⟨h1, -⟩ := List.append_inj' hsplit' (by simp)
    exact hord l1 m l2' h1

/-- The extractor's running invariant: the identity set mirrors the emitted
dependency queue, emitted identities are unique, string and metadata
dependencies come from the respective identity universes, and metadata
records follow their strings. -/
structure ExtInvariant (env : LogMetaEnv) (SU MU : Nat → Prop) (st : ExtractState) : Prop where
  ids_eq : ∀ i, i ∈ st.ids ↔ i ∈ st.deps.map LogDep.depId
  nodup : (st.deps.map LogDep.depId).Nodup
  strOk : ∀ i, LogDep.str i ∈ st.deps → SU i
  metaOk : ∀ a, LogDep.meta a ∈ st.deps → MU a
  ordered : orderedDeps env st.deps

theorem mem_depIds_iff (deps : List LogDep) (i : Nat) :
    i ∈ deps.map LogDep.depId ↔ LogDep.str i ∈ deps ∨ LogDep.meta i ∈ deps := by
  rw [List.mem_map]
  constructor
  · rintro ⟨d, hd, rfl⟩
    cases d with
    | str j => exact Or.inl hd
    | meta j => exact Or.inr hd
  · rintro (h | h)
    · exact ⟨_, h, rfl⟩
    · exact ⟨_, h, rfl⟩

/-- A string identity present in the set was emitted as a string
dependency (given the identity universes are disjoint). -/
theorem str_dep_of_mem_ids (env : LogMetaEnv) (SU MU : Nat → Prop)
    (hdisj : ∀ i, SU i → MU i → False) (st : ExtractState)
    (hinv : ExtInvariant env SU MU st) (i : Nat) (hSU : SU i) (hi : i ∈ st.ids) :
    LogDep.str i ∈ st.deps := by
  rcases (mem_depIds_iff st.deps i).mp ((hinv.ids_eq i).mp hi) with h | h
  · exact h
  · exact absurd (hdisj i hSU (hinv.metaOk i h)) (by simp)

/-- A metadata identity present in the set was emitted as a metadata
dependency. -/
theorem meta_dep_of_mem_ids (env : LogMetaEnv) (SU MU : Nat → Prop)
    (hdisj : ∀ i, SU i → MU i → False) (st : ExtractState)
    (hinv : ExtInvariant env SU MU st) (a : Nat) (hMU : MU a) (ha : a ∈ st.ids) :
    LogDep.meta a ∈ st.deps := by
  rcases (mem_depIds_iff st.deps a).mp ((hinv.ids_eq a).mp ha) with h | h
  · exact absurd (hdisj a (hinv.strOk a h) hMU) (by simp)
  · exact h

theorem visitStr_inv (env : LogMetaEnv) (SU MU : Nat → Prop) (st : ExtractState)
    (i : Nat) (hinv : ExtInvariant env SU MU st) (hSU : SU i) :
    ExtInvariant env SU MU (visitStr st i) ∧
      (∀ j, j ∈ (visitStr st i).ids ↔ j ∈ st.ids ∨ j = i) := by
  by_cases hi : i ∈ st.ids
  · rw [visitStr, if_pos hi]
    exact ⟨hinv, fun j => ⟨Or.inl, fun h => h.elim id (fun hj => hj ▸ hi)⟩⟩
  · rw [visitStr, if_neg hi]
    refine ⟨⟨?_, ?_, ?_, ?_, ?_⟩, ?_⟩
    · intro j
      simp only [List.mem_append, List.mem_singleton, List.map_append, List.map_cons,
        List.map_nil, hinv.ids_eq j, LogDep.depId]
    · simp only [List.map_append, List.map_cons, List.map_nil, LogDep.depId]
      refine List.Nodup.append hinv.nodup (List.nodup_singleton i) ?_
      intro x hx hx'
      rcases List.mem_singleton.mp hx' with rfl
      exact hi ((hinv.ids_eq x).mpr hx)
    · intro j hj
      rcases List.mem_append.mp hj with h | h
      · exact hinv.strOk j h
      · rcases List.mem_singleton.mp h with h
        injection h with h
        exact h ▸ hSU
    · intro a ha
      rcases List.mem_append.mp ha with h | h
      · exact hinv.metaOk a h
      · exact absurd (List.mem_singleton.mp h) (by simp)
    · exact orderedDeps_append_strs env st.deps [LogDep.str i] hinv.ordered
        (by intro d hd a; rcases List.mem_singleton.mp hd with rfl; simp)
    · intro j
      simp [List.mem_append]

theorem depIds_str_map (added : List Nat) :
    added.map (LogDep.depId ∘ LogDep.str) = added := by
  induction added with
  | nil => rfl
  | cons x xs ih => simp only [List.map_cons, Function.comp_apply, LogDep.depId, ih]

theorem visitMeta_inv (env : LogMetaEnv) (SU MU : Nat → Prop)
    (hdisj : ∀ i, SU i → MU i → False) (st : ExtractState) (a : Nat)
    (hinv : ExtInvariant env SU MU st) (hMUa : MU a)
    (hSUt : SU (env.target a)) (hSUm : SU (env.msg a)) (hSUf : SU (env.file a)) :
    ExtInvariant env SU MU (visitMeta env st a) ∧
      (∀ j, j ∈ (visitMeta env st a).ids ↔
        j ∈ st.ids ∨ j = a ∨ j = env.target a ∨ j = env.msg a ∨ j = env.file a) := by
  by_cases ha : a ∈ st.ids
  · rw [visitMeta, if_pos ha]
    refine ⟨hinv, fun j => ⟨Or.inl, ?_⟩⟩
    have hmeta : LogDep.meta a ∈ st.deps :=
      meta_dep_of_mem_ids env SU MU hdisj st hinv a hMUa ha
    obtain ⟨l1, l2, hl⟩ := List.append_of_mem hmeta
    obtain ⟨hts, hms, hfs⟩ := hinv.ordered l1 a l2 hl
    have hstr : ∀ i, LogDep.str i ∈ l1 → i ∈ st.ids := by
      intro i hi
      refine (hinv.ids_eq i).mpr ((mem_depIds_iff _ _).mpr (Or.inl ?_))
      rw [hl]
      exact List.mem_append.mpr (Or.inl hi)
    rintro (hj | rfl | rfl | rfl | rfl)
    · exact hj
    · exact ha
    · exact hstr _ hts
    · exact hstr _ hms
    · exact hstr _ hfs
  · obtain ⟨added, h1, h2, h3, h4, h5⟩ :=
      visitStrs_spec [env.target a, env.msg a, env.file a]
        (⟨st.ids ++ [a], st.deps⟩ : ExtractState)
    dsimp only at h1 h2 h4 h5
    have hv : visitMeta env st a =
        ⟨st.ids ++ [a] ++ added,
          (st.deps ++ added.map LogDep.str) ++ [LogDep.meta a]⟩ := by
      rw [visitMeta, if_neg ha]
      show (⟨_, (visitStrs (⟨st.ids ++ [a], st.deps⟩ : ExtractState)
        [env.target a, env.msg a, env.file a]).deps ++ [LogDep.meta a]⟩ : ExtractState) = _
      rw [h1, h2]
    have haddedSU : ∀ x ∈ added, SU x := by
      intro x hx
      have hx1 := (h4 x hx).1
      simp only [List.mem_cons, List.not_mem_nil, or_false] at hx1
      rcases hx1 with h | h | h
      · rw [h]; exact hSUt
      · rw [h]; exact hSUm
      · rw [h]; exact hSUf
    have haddedNew : ∀ x ∈ added, x ∉ st.ids ∧ x ≠ a := by
      intro x hx
      have := (h4 x hx).2
      simp only [List.mem_append, List.mem_singleton, not_or] at this
      exact this
    have hstrWitness : ∀ s, s ∈ ([env.target a, env.msg a, env.file a] : List Nat) → SU s →
        LogDep.str s ∈ st.deps ++ added.map LogDep.str := by
      intro s hs hSUs
      have hmem := h5 s hs
      simp only [List.append_assoc, List.mem_append, List.mem_singleton] at hmem
      rcases hmem with hmem | hmem | hmem
      · exact List.mem_append.mpr (Or.inl
          (str_dep_of_mem_ids env SU MU hdisj st hinv s hSUs hmem))
      · subst hmem
        exact absurd (hdisj s hSUs hMUa) (by simp)
      · exact List.mem_append.mpr (Or.inr (List.mem_map.mpr ⟨s, hmem, rfl⟩))
    rw [hv]
    constructor
    · refine ⟨?_, ?_, ?_, ?_, ?_⟩
      · intro j
        have hD : ((st.deps ++ added.map LogDep.str) ++ [LogDep.meta a]).map LogDep.depId
            = (st.deps.map LogDep.depId ++ added) ++ [a] := by
          simp [List.map_append, List.map_map, depIds_str_map, LogDep.depId]
        show _ ↔ j ∈ ((st.deps ++ added.map LogDep.str) ++ [LogDep.meta a]).map LogDep.depId
        rw [hD]
        simp only [List.mem_append, List.mem_singleton, hinv.ids_eq j]
        tauto
      · have hD : ((st.deps ++ added.map LogDep.str) ++ [LogDep.meta a]).map LogDep.depId
            = (st.deps.map LogDep.depId ++ added) ++ [a] := by
          simp [List.map_append, List.map_map, depIds_str_map, LogDep.depId]
        show (((st.deps ++ added.map LogDep.str) ++ [LogDep.meta a]).map LogDep.depId).Nodup
        rw [hD]
        refine List.Nodup.append (List.Nodup.append hinv.nodup h3 ?_)
          (List.nodup_singleton a) ?_
        · intro x hx hx'
          exact (haddedNew x hx').1 ((hinv.ids_eq x).mpr hx)
        · intro x hx hx'
          rcases List.mem_singleton.mp hx' with rfl
          rcases List.mem_append.mp hx with h | h
          · exact ha ((hinv.ids_eq x).mpr h)
          · exact (haddedNew x h).2 rfl
      · intro i hi
        rcases List.mem_append.mp hi with h | h
        · rcases List.mem_append.mp h with h' | h'
          · exact hinv.strOk i h'
          · obtain ⟨x, hx, hxe⟩ := List.mem_map.mp h'
            injection hxe with hxe
            exact hxe ▸ haddedSU x hx
        · rcases List.mem_singleton.mp h with h'
          exact absurd h' (by simp)
      · intro m hm
        rcases List.mem_append.mp hm with h | h
        · rcases List.mem_append.mp h with h' | h'
          · exact hinv.metaOk m h'
          · obtain ⟨x, -, hxe⟩ := List.mem_map.mp h'
            exact absurd hxe (by simp)
        · rcases List.mem_singleton.mp h with h'
          injection h' with h'
          exact h' ▸ hMUa
      · refine orderedDeps_append_meta env _ a
          (orderedDeps_append_strs env st.deps (added.map LogDep.str) hinv.ordered ?_)
          (hstrWitness _ (by simp) hSUt) (hstrWitness _ (by simp) hSUm)
          (hstrWitness _ (by simp) hSUf)
        intro d hd m
        obtain ⟨x, -, hxe⟩ := List.mem_map.mp hd
        exact hxe ▸ (by simp)
    · intro j
      simp only [List.append_assoc, List.mem_append, List.mem_singleton]
      constructor
      · rintro (h | h | h)
        · exact Or.inl h
        · exact Or.inr (Or.inl h)
        · have h' := (h4 j h).1
          simp only [List.mem_cons, List.not_mem_nil, or_false] at h'
          rcases h' with h' | h' | h'
          · exact Or.inr (Or.inr (Or.inl h'))
          · exact Or.inr (Or.inr (Or.inr (Or.inl h')))
          · exact Or.inr (Or.inr (Or.inr (Or.inr h')))
      · rintro (h | h | h | h | h)
        · exact Or.inl h
        · exact Or.inr (Or.inl h)
        · have := h5 j (by simp [h])
          simpa using this
        · have := h5 j (by simp [h])
          simpa using this
        · have := h5 j (by simp [h])
          simpa using this

/-- Identity universes of one queue record: its metadata pointer is a
metadata identity, its string pointers are string identities. -/
def eventUniverses (env : LogMetaEnv) (SU MU : Nat → Prop) : LogRecord → Prop
  | .staticStr e => MU e.desc ∧ SU (env.target e.desc) ∧ SU (env.msg e.desc) ∧
      SU (env.file e.desc)
  | .interop e => SU e.target.ptr
  | .staticRef r => SU r.ptr

theorem visitEvent_inv (env : LogMetaEnv) (SU MU : Nat → Prop)
    (hdisj : ∀ i, SU i → MU i → False) (st : ExtractState) (ev : LogRecord)
    (hinv : ExtInvariant env SU MU st) (hev : eventUniverses env SU MU ev) :
    ExtInvariant env SU MU (visitEvent env st ev) ∧
      (∀ j, j ∈ (visitEvent env st ev).ids ↔ j ∈ st.ids ∨ j ∈ refIds env ev) := by
  cases ev with
  | staticStr e =>
    obtain ⟨hMU, hT, hM, hF⟩ := hev
    obtain ⟨hi, hm⟩ := visitMeta_inv env SU MU hdisj st e.desc hinv hMU hT hM hF
    refine ⟨hi, fun j => ?_⟩
    simp only [visitEvent, refIds, List.mem_cons, List.not_mem_nil, or_false]
    rw [hm j]
  | interop e =>
    obtain ⟨hi, hm⟩ := visitStr_inv env SU MU st e.target.ptr hinv hev
    refine ⟨hi, fun j => ?_⟩
    simp only [visitEvent, refIds, List.mem_cons, List.not_mem_nil, or_false]
    rw [hm j]
  | staticRef r =>
    obtain ⟨hi, hm⟩ := visitStr_inv env SU MU st r.ptr hinv hev
    refine ⟨hi, fun j => ?_⟩
    simp only [visitEvent, refIds, List.mem_cons, List.not_mem_nil, or_false]
    rw [hm j]

theorem extInvariant_empty (env : LogMetaEnv) (SU MU : Nat → Prop) :
    ExtInvariant env SU MU ⟨[], []⟩ := by
  refine ⟨fun i => by simp, by simp, fun i h => absurd h (by simp),
    fun a h => absurd h (by simp), fun l1 a l2 h => absurd h.symm (by simp)⟩

theorem extract_fold_inv (env : LogMetaEnv) (SU MU : Nat → Prop)
    (hdisj : ∀ i, SU i → MU i → False) (evts : List LogRecord)
    (hall : ∀ ev ∈ evts, eventUniverses env SU MU ev) (st : ExtractState)
    (hinv : ExtInvariant env SU MU st) :
    ExtInvariant env SU MU (evts.foldl (visitEvent env) st) ∧
      (∀ j, j ∈ (evts.foldl (visitEvent env) st).ids ↔
        j ∈ st.ids ∨ j ∈ refIdsAll env evts) := by
  induction evts generalizing st with
  | nil => exact ⟨hinv, fun j => by simp [refIdsAll]⟩
  | cons ev evts ih =>
    obtain ⟨h1, h2⟩ := visitEvent_inv env SU MU hdisj st ev hinv (hall ev (by simp))
    obtain ⟨g1, g2⟩ := ih (fun x hx => hall x (by simp [hx])) (visitEvent env st ev) h1
    refine ⟨g1, fun j => ?_⟩
    rw [List.foldl_cons, g2 j, h2 j]
    simp only [refIdsAll, List.flatMap_cons, List.mem_append]
    tauto

/-- C4: one extraction pass over a sealed log block emits exactly the set of
identities referenced by the block's events (for a `LogStaticStrEvent` its
metadata record and the record's three strings; for a
`LogStringInteropEvent` only its target string — the message is inline),
each identity exactly once however many events reference it; and every
metadata-dependency record is preceded in the queue by string dependencies
for its strings.  Hypothesis: metadata addresses and string addresses are
distinct (they are distinct C++ objects). -/
theorem C4_dependency_extraction (env : LogMetaEnv) (evts : List LogRecord)
    (hdisj : ∀ i ∈ metaAddrs evts, i ∉ strIds env evts) :
    (∀ i, i ∈ (extractLogDependencies env evts).deps.map LogDep.depId ↔
        i ∈ refIdsAll env evts) ∧
    ((extractLogDependencies env evts).deps.map LogDep.depId).Nodup ∧
    (∀ l1 a l2, (extractLogDependencies env evts).deps = l1 ++ LogDep.meta a :: l2 →
      LogDep.str (env.target a) ∈ l1 ∧ LogDep.str (env.msg a) ∈ l1 ∧
        LogDep.str (env.file a) ∈ l1) ∧
    (∀ e : LogStringInteropEvent, refIds env (.interop e) = [e.target.ptr]) := by
  have hd' : ∀ i, (i ∈ strIds env evts) → (i ∈ metaAddrs evts) → False :=
    fun i hs hm => hdisj i hm hs
  have hall : ∀ ev ∈ evts,
      eventUniverses env (· ∈ strIds env evts) (· ∈ metaAddrs evts) ev := by
    intro ev hev
    cases ev with
    | staticStr e =>
      refine ⟨List.mem_flatMap.mpr ⟨_, hev, by simp⟩, List.mem_flatMap.mpr ⟨_, hev, by simp⟩,
        List.mem_flatMap.mpr ⟨_, hev, by simp⟩, List.mem_flatMap.mpr ⟨_, hev, by simp⟩⟩
    | interop e => exact List.mem_flatMap.mpr ⟨_, hev, by simp⟩
    | staticRef r => exact List.mem_flatMap.mpr ⟨_, hev, by simp⟩
  obtain ⟨hinv, hids⟩ := extract_fold_inv env (· ∈ strIds env evts) (· ∈ metaAddrs evts)
    hd' evts hall ⟨[], []⟩ (extInvariant_empty env _ _)
  refine ⟨fun i => ?_, hinv.nodup, hinv.ordered, fun e => rfl⟩
  show i ∈ (List.foldl (visitEvent env) ⟨[], []⟩ evts).deps.map LogDep.depId ↔ _
  rw [← hinv.ids_eq i, hids i]
  simp

theorem C4_dependency_extraction_witness :
    (∀ i ∈ metaAddrs
        [.staticStr ⟨1, 10⟩, .staticStr ⟨1, 11⟩,
         .interop ⟨12, 3, ⟨7, 5, 1⟩, ⟨0, [65]⟩⟩, .staticRef ⟨7, 5, 1⟩],
      i ∉ strIds ⟨fun a => a + 100, fun a => a + 200, fun a => a + 300⟩
        [.staticStr ⟨1, 10⟩, .staticStr ⟨1, 11⟩,
         .interop ⟨12, 3, ⟨7, 5, 1⟩, ⟨0, [65]⟩⟩, .staticRef ⟨7, 5, 1⟩]) ∧
    ((∀ i, i ∈ (extractLogDependencies
          ⟨fun a => a + 100, fun a => a + 200, fun a => a + 300⟩
          [.staticStr ⟨1, 10⟩, .staticStr ⟨1, 11⟩,
           .interop ⟨12, 3, ⟨7, 5, 1⟩, ⟨0, [65]⟩⟩,
           .staticRef ⟨7, 5, 1⟩]).deps.map LogDep.depId ↔
        i ∈ refIdsAll ⟨fun a => a + 100, fun a => a + 200, fun a => a + 300⟩
          [.staticStr ⟨1, 10⟩, .staticStr ⟨1, 11⟩,
           .interop ⟨12, 3, ⟨7, 5, 1⟩, ⟨0, [65]⟩⟩, .staticRef ⟨7, 5, 1⟩]) ∧
      ((extractLogDependencies
          ⟨fun a => a + 100, fun a => a + 200, fun a => a + 300⟩
          [.staticStr ⟨1, 10⟩, .staticStr ⟨1, 11⟩,
           .interop ⟨12, 3, ⟨7, 5, 1⟩, ⟨0, [65]⟩⟩,
           .staticRef ⟨7, 5, 1⟩]).deps.map LogDep.depId).Nodup ∧
      (∀ l1 a l2, (extractLogDependencies
          ⟨fun a => a + 100, fun a => a + 200, fun a => a + 300⟩
          [.staticStr ⟨1, 10⟩, .staticStr ⟨1, 11⟩,
           .interop ⟨12, 3, ⟨7, 5, 1⟩, ⟨0, [65]⟩⟩,
           .staticRef ⟨7, 5, 1⟩]).deps = l1 ++ LogDep.meta a :: l2 →
        LogDep.str (a + 100) ∈ l1 ∧ LogDep.str (a + 200) ∈ l1 ∧
          LogDep.str (a + 300) ∈ l1) ∧
      (∀ e : LogStringInteropEvent,
        refIds ⟨fun a => a + 100, fun a => a + 200, fun a => a + 300⟩ (.interop e)
          = [e.target.ptr])) :=
  ⟨by decide,
    C4_dependency_extraction ⟨fun a => a + 100, fun a => a + 200, fun a => a + 300⟩
      [.staticStr ⟨1, 10⟩, .staticStr ⟨1, 11⟩,
       .interop ⟨12, 3, ⟨7, 5, 1⟩, ⟨0, [65]⟩⟩, .staticRef ⟨7, 5, 1⟩]
      (by decide)⟩

/-! ## Block-payload formatting (`InsertBlockRequest.h`)

`FormatBlockRequest` extracts the block's dependencies (one `ForEach`
pass), serializes the JSON envelope — returning an EMPTY `TArray` when that
fails — then writes `[dynstr envelope][u32 dep size][compressed dep
bytes][u32 obj size][compressed obj bytes]`, calling
`CompressBuffer(queue.GetPtr(), queue.GetSizeBytes())` on the dependency
queue and on the event queue.  `GetPtr` is `&Buffer[0]`, an out-of-bounds
index when the queue is empty, surfaced as `none`.  The LZ4 frame codec
(`compress`), the JSON text (`envelope` plus the `jsonOk` outcome of
`FJsonSerializer::Serialize`) and the dependency-record serializer
(`depBytes`) are opaque parameters: the core treats them as byte
transformers. -/

def formatBlockRequest (jsonOk : Bool) (envelope : DynamicString)
    (compress : List Nat → List Nat) (env : LogMetaEnv)
    (depBytes : LogDep → List Nat) (b : EventBlock LogRecord) : Option (List Nat) :=
  let ext := extractLogDependencies env b.events
  let depBuffer := ext.deps.flatMap depBytes
  let objBuffer := b.events.flatMap LogRecord.pushBytes
  if jsonOk = false then
    some []
  else do
    let _ ← depBuffer.get? 0
    let compressedDep := compress depBuffer
    let _ ← objBuffer.get? 0
    let compressedObj := compress objBuffer
    some (writeDynamicString envelope
      ++ u32Bytes compressedDep.length ++ compressedDep
      ++ u32Bytes compressedObj.length ++ compressedObj)

/-! ## Claims C9 and C10 -/

/-- C9 counterexample: the claim says a failed JSON envelope serialization
skips only the envelope while the compressed dependency and object bytes
are still attempted.  But `FormatBlockRequest` returns an empty `TArray` as
soon as `FJsonSerializer::Serialize` fails: on a block holding one event
(whose payload under a successful envelope is nonempty), the failed-JSON
result is the empty payload — no dependency bytes, no object bytes. -/
theorem C9_counterexample :
    (∀ bs, formatBlockRequest false ⟨0, [65]⟩ (fun l => l)
        ⟨fun a => a + 100, fun a => a + 200, fun a => a + 300⟩ (fun _ => [0])
        ⟨0, some 9, [.staticStr ⟨1, 5⟩], 200⟩ = some bs → bs.length = 0) ∧
    (∃ bs, formatBlockRequest true ⟨0, [65]⟩ (fun l => l)
        ⟨fun a => a + 100, fun a => a + 200, fun a => a + 300⟩ (fun _ => [0])
        ⟨0, some 9, [.staticStr ⟨1, 5⟩], 200⟩ = some bs ∧ 0 < bs.length) := by
  constructor
  · intro bs hbs
    have : bs = [] := by
      have h : formatBlockRequest false ⟨0, [65]⟩ (fun l => l)
          ⟨fun a => a + 100, fun a => a + 200, fun a => a + 300⟩ (fun _ => [0])
          ⟨0, some 9, [.staticStr ⟨1, 5⟩], 200⟩ = some [] := rfl
      rw [h] at hbs
      exact (Option.some_inj.mp hbs).symm
    simp [this]
  · exact ⟨_, rfl, by decide⟩

/-- C9 (amended): when JSON serialization of the block envelope fails, the
error is logged and the whole block request is abandoned —
`FormatBlockRequest` returns the empty payload, emitting neither the
envelope nor the compressed dependency or object bytes (dependency
extraction has already run by then); only on JSON success is the full
`[envelope][u32+dep bytes][u32+obj bytes]` payload produced. -/
theorem C9_amended_json_failure_abandons_block (envelope : DynamicString)
    (compress : List Nat → List Nat) (env : LogMetaEnv)
    (depBytes : LogDep → List Nat) (b : EventBlock LogRecord) :
    formatBlockRequest false envelope compress env depBytes b = some [] ∧
    (∀ bs, formatBlockRequest true envelope compress env depBytes b = some bs →
      bs = writeDynamicString envelope
        ++ u32Bytes (compress ((extractLogDependencies env b.events).deps.flatMap
            depBytes)).length
        ++ compress ((extractLogDependencies env b.events).deps.flatMap depBytes)
        ++ u32Bytes (compress (b.events.flatMap LogRecord.pushBytes)).length
        ++ compress (b.events.flatMap LogRecord.pushBytes)) := by
  refine ⟨rfl, ?_⟩
  intro bs hbs
  simp only [formatBlockRequest, Bool.true_eq_false, if_false, Option.bind_eq_bind] at hbs
  cases hdep : ((extractLogDependencies env b.events).deps.flatMap depBytes).get? 0 with
  | none => rw [hdep] at hbs; simp at hbs
  | some x =>
    rw [hdep] at hbs
    cases hobj : (b.events.flatMap LogRecord.pushBytes).get? 0 with
    | none => rw [hobj] at hbs; simp at hbs
    | some y =>
      rw [hobj] at hbs
      simp only [Option.some_bind, Option.some_inj] at hbs
      simp [← hbs, List.append_assoc]

theorem C9_amended_json_failure_abandons_block_witness :
    formatBlockRequest false ⟨0, [65]⟩ (fun l => l)
        ⟨fun a => a + 100, fun a => a + 200, fun a => a + 300⟩ (fun _ => [0])
        ⟨0, some 9, [.staticStr ⟨1, 5⟩], 200⟩ = some [] ∧
    (∀ bs, formatBlockRequest true ⟨0, [65]⟩ (fun l => l)
        ⟨fun a => a + 100, fun a => a + 200, fun a => a + 300⟩ (fun _ => [0])
        ⟨0, some 9, [.staticStr ⟨1, 5⟩], 200⟩ = some bs →
      bs = writeDynamicString ⟨0, [65]⟩
        ++ u32Bytes ((extractLogDependencies
            ⟨fun a => a + 100, fun a => a + 200, fun a => a + 300⟩
            [.staticStr ⟨1, 5⟩]).deps.flatMap (fun _ => [0])).length
        ++ ((extractLogDependencies
            ⟨fun a => a + 100, fun a => a + 200, fun a => a + 300⟩
            [.staticStr ⟨1, 5⟩]).deps.flatMap (fun _ => [0]))
        ++ u32Bytes ([LogRecord.staticStr ⟨1, 5⟩].flatMap LogRecord.pushBytes).length
        ++ ([LogRecord.staticStr ⟨1, 5⟩].flatMap LogRecord.pushBytes)) :=
  C9_amended_json_failure_abandons_block ⟨0, [65]⟩ (fun l => l)
    ⟨fun a => a + 100, fun a => a + 200, fun a => a + 300⟩ (fun _ => [0])
    ⟨0, some 9, [.staticStr ⟨1, 5⟩], 200⟩

/-- C10: `GetPtr()` on a queue into which zero events were pushed indexes
element 0 of the empty byte buffer — out of bounds in this total embedding —
and the access is reachable at the public interface: `FormatBlockRequest`
calls `GetPtr()` on the event queue and on the extracted dependency queue
even when they are empty, and the force-rotation at shutdown delivers
exactly such an empty block when nothing was emitted after `Init`. -/
theorem C10_getPtr_empty_out_of_bounds (p l m t now : Nat) (envelope : DynamicString)
    (compress : List Nat → List Nat) (env : LogMetaEnv) (depBytes : LogDep → List Nat) :
    LogEventQueue.empty.getPtr = none ∧
    (∀ b : EventBlock LogRecord, b.events = [] →
      formatBlockRequest true envelope compress env depBytes b = none) ∧
    (∃ b : EventBlock LogRecord,
      SinkCall.onProcessLogBlock b ∈
        (dispatchShutdown now (dispatchInit p l m t initialState)).sinkCalls ∧
      b.events = [] ∧
      formatBlockRequest true envelope compress env depBytes b = none) := by
  have hempty : ∀ b : EventBlock LogRecord, b.events = [] →
      formatBlockRequest true envelope compress env depBytes b = none := by
    intro b hb
    simp [formatBlockRequest, hb, extractLogDependencies]
  refine ⟨rfl, hempty, ⟨⟨p, some now, [], l⟩, ?_, rfl, hempty _ rfl⟩⟩
  simp [dispatchInit, initialState, dispatchShutdown, flushLogStream, flushMetricStream,
    flushLogStreamImpl, flushMetricStreamImpl, EventStream.swapBlocks, EventStream.mkStream,
    EventBlock.close, mkBlock]

theorem C10_getPtr_empty_out_of_bounds_witness :
    LogEventQueue.empty.getPtr = none ∧
    (∀ b : EventBlock LogRecord, b.events = [] →
      formatBlockRequest true ⟨0, []⟩ (fun l => l) ⟨fun a => a, fun a => a, fun a => a⟩
        (fun _ => [0]) b = none) ∧
    (∃ b : EventBlock LogRecord,
      SinkCall.onProcessLogBlock b ∈
        (dispatchShutdown 9 (dispatchInit 0 200 100 100 initialState)).sinkCalls ∧
      b.events = [] ∧
      formatBlockRequest true ⟨0, []⟩ (fun l => l) ⟨fun a => a, fun a => a, fun a => a⟩
        (fun _ => [0]) b = none) :=
  C10_getPtr_empty_out_of_bounds 0 200 100 100 9 ⟨0, []⟩ (fun l => l)
    ⟨fun a => a, fun a => a, fun a => a⟩ (fun _ => [0])

end LgnTracing
